import Mathlib

/-!
# RobertaRoyale Euchre engine: shallow embedding and verification

This file embeds the core rules engine of `backend/game_logic.py` and the AI
decision engine of `backend/ai_player.py` as executable Lean definitions, and
settles the specification claims about them.

Modelling conventions:
* Python `random.shuffle` is modelled by an explicit `shuffled : List Card`
  parameter; theorems that need a fair deal assume it is a permutation of
  `create_deck`.  `random.random()` is likewise an explicit parameter.
* Methods that return `False` while leaving the object untouched are modelled
  as `Option` results where `none` means "returned False, no state change".
* Python float literals are modelled as exact rationals; every comparison a
  settled claim depends on involves only values on which the two semantics
  agree.
* Dictionary lookups that would raise `KeyError`/`IndexError` in Python are
  modelled with default values; every theorem below only exercises them with
  the key present, as the server does.
-/

namespace Euchre

/-- The four suits (`game_logic.py`, `class Suit`). -/
inductive Suit where
  | hearts | diamonds | clubs | spades
deriving DecidableEq, Repr, Fintype

/-- The six Euchre ranks (`game_logic.py`, `class Rank`). -/
inductive Rank where
  | nine | ten | jack | queen | king | ace
deriving DecidableEq, Repr, Fintype

/-- The numeric value of a rank (the Python `Rank` enum value, 9..14). -/
def Rank.value : Rank → Nat
  | .nine => 9
  | .ten => 10
  | .jack => 11
  | .queen => 12
  | .king => 13
  | .ace => 14

/-- A playing card (`game_logic.py`, `@dataclass Card`); equality is by
(suit, rank), as for the Python dataclass. -/
structure Card where
  suit : Suit
  rank : Rank
deriving DecidableEq, Repr

instance : Fintype Card :=
  Fintype.ofSurjective (fun p : Suit × Rank => Card.mk p.1 p.2)
    (fun c => ⟨(c.suit, c.rank), rfl⟩)

/-- Membership in the Python literal `[Suit.HEARTS, Suit.DIAMONDS]`. -/
def is_red (s : Suit) : Bool :=
  s = Suit.hearts || s = Suit.diamonds

/-- Membership in the Python literal `[Suit.CLUBS, Suit.SPADES]`. -/
def is_black (s : Suit) : Bool :=
  s = Suit.clubs || s = Suit.spades

/-- The same-colour test that `game_logic.py` and `ai_player.py` both write as
`(trump in reds and suit in reds) or (trump in blacks and suit in blacks)`. -/
def same_color (trump_suit s : Suit) : Bool :=
  (is_red trump_suit && is_red s) || (is_black trump_suit && is_black s)

/-- `game_logic.py`, `GamePhase` enum. -/
inductive GamePhase where
  | waiting_for_players | dealing | trump_selection | playing
  | round_complete | game_complete
deriving DecidableEq, Repr

/-- `game_logic.py`, `@dataclass Player`. -/
structure Player where
  id : String
  name : String
  hand : List Card
  position : Nat
  is_connected : Bool
  is_ai : Bool
deriving DecidableEq, Repr

/-- `game_logic.py`, `@dataclass Trick`; `cards` is the ordered list of
`(player_id, card)` pairs. -/
structure Trick where
  cards : List (String × Card)
  leader : String
  winner : String
deriving DecidableEq, Repr

/-- A freshly constructed `Trick()` with all defaults. -/
def Trick.empty : Trick := ⟨[], "", ""⟩

/-- The state of `class EuchreGame`.  The Python `players` dict (insertion
ordered, keyed by `id`) is modelled as a list of players with distinct ids;
`team_scores` is the pair (team 0, team 1). -/
structure EuchreGame where
  room_code : String
  players : List Player
  player_order : List String
  phase : GamePhase
  deck : List Card
  trump_suit : Option Suit
  trump_card : Option Card
  dealer_index : Nat
  current_player_index : Nat
  current_trick : Trick
  completed_tricks : List Trick
  trump_maker : Option String
  going_alone : Option String
  team_scores : Nat × Nat
  round_points : Nat
  trump_selection_round : Nat
  trump_selection_player_index : Nat
deriving DecidableEq, Repr

/-- `EuchreGame.__init__(room_code)`. -/
def emptyGame (room : String) : EuchreGame where
  room_code := room
  players := []
  player_order := []
  phase := GamePhase.waiting_for_players
  deck := []
  trump_suit := none
  trump_card := none
  dealer_index := 0
  current_player_index := 0
  current_trick := Trick.empty
  completed_tricks := []
  trump_maker := none
  going_alone := none
  team_scores := (0, 0)
  round_points := 0
  trump_selection_round := 1
  trump_selection_player_index := 0

/-- Lookup `self.players[pid]` (Python dict access by key). -/
def EuchreGame.findPlayer (g : EuchreGame) (pid : String) : Option Player :=
  g.players.find? (fun p => p.id = pid)

/-- `self.players[pid].position`; Python raises `KeyError` when the id is
absent, we default to 0 (every theorem evaluates this with the id present). -/
def EuchreGame.positionOf (g : EuchreGame) (pid : String) : Nat :=
  ((g.findPlayer pid).map Player.position).getD 0

/-- `game_logic.py`, `EuchreGame.get_card_value(card, trump_suit, leading_suit)`:
right bower 100, left bower 99, other trump 50 + rank, leading suit its rank,
anything else 0. -/
def EuchreGame.get_card_value (card : Card) (trump_suit leading_suit : Suit) : Nat :=
  if card.rank = Rank.jack ∧ card.suit = trump_suit then 100
  else if card.rank = Rank.jack ∧ same_color trump_suit card.suit then 99
  else if card.suit = trump_suit then 50 + card.rank.value
  else if card.suit = leading_suit then card.rank.value
  else 0

/-- `game_logic.py`, `EuchreGame.is_trump(card)`. -/
def EuchreGame.is_trump (g : EuchreGame) (card : Card) : Bool :=
  match g.trump_suit with
  | none => false
  | some t =>
      if card.suit = t then true
      else card.rank = Rank.jack && same_color t card.suit

/-- `game_logic.py`, `EuchreGame.get_effective_suit(card)`: trump for the
left bower, otherwise the card's own suit. -/
def EuchreGame.get_effective_suit (g : EuchreGame) (card : Card) : Suit :=
  match g.trump_suit with
  | some t => if card.rank = Rank.jack ∧ same_color t card.suit then t else card.suit
  | none => card.suit

/-- `game_logic.py`, `EuchreGame.can_play_card(player_id, card)`. -/
def EuchreGame.can_play_card (g : EuchreGame) (player_id : String) (card : Card) : Bool :=
  match g.findPlayer player_id with
  | none => false
  | some player =>
    if card ∈ player.hand then
      match g.current_trick.cards with
      | [] => true
      | (_, leading_card) :: _ =>
        let leading_suit := g.get_effective_suit leading_card
        let has_leading_suit := player.hand.any (fun c => g.get_effective_suit c = leading_suit)
        if has_leading_suit then g.get_effective_suit card = leading_suit
        else true
    else false

/-- `game_logic.py`, `EuchreGame.create_deck`: all 24 (suit, rank) pairs in
the enum iteration order of the two Python `for` loops. -/
def create_deck : List Card :=
  [Suit.hearts, Suit.diamonds, Suit.clubs, Suit.spades].flatMap (fun s =>
    [Rank.nine, Rank.ten, Rank.jack, Rank.queen, Rank.king, Rank.ace].map (fun r => ⟨s, r⟩))

/-- Default card for out-of-range deck indexing; Python would raise
`IndexError`, which no settled claim exercises (the deck always has 24 cards
when dealt). -/
def defaultCard : Card := ⟨Suit.hearts, Rank.nine⟩

/-- `self.players[player_id].hand.append(c)` inside the deal loop (also used
for the dealer pickup in `handle_trump_selection`). -/
def appendToHand (ps : List Player) (pid : String) (c : Card) : List Player :=
  ps.map (fun p => if p.id = pid then { p with hand := p.hand ++ [c] } else p)

/-- One pass of the deal loop of `deal_cards`: one card from the deck to each
seat of `player_order`, threading the running `card_index`. -/
def dealPass (deck : List Card) (order : List String) :
    List Player × Nat → List Player × Nat :=
  fun st => order.foldl
    (fun st2 pid => (appendToHand st2.1 pid (deck.getD st2.2 defaultCard), st2.2 + 1)) st

/-- `game_logic.py`, `EuchreGame.deal_cards`: install the shuffled deck, clear
all hands, deal 5 passes of one card per seat, turn the next card as the trump
card, and enter trump selection with the seat left of the dealer bidding
first.  The shuffle is the `shuffled` parameter. -/
def EuchreGame.deal_cards (g : EuchreGame) (shuffled : List Card) : EuchreGame :=
  let cleared := g.players.map (fun p => { p with hand := [] })
  let st := (List.range 5).foldl (fun st _ => dealPass shuffled g.player_order st) (cleared, 0)
  { g with
      deck := shuffled
      players := st.1
      trump_card := some (shuffled.getD st.2 defaultCard)
      phase := GamePhase.trump_selection
      trump_selection_round := 1
      trump_selection_player_index := (g.dealer_index + 1) % 4 }

/-- `game_logic.py`, `EuchreGame.start_next_round`: clear the round state,
advance the dealer, deal again. -/
def EuchreGame.start_next_round (g : EuchreGame) (shuffled : List Card) : EuchreGame :=
  EuchreGame.deal_cards
    { g with
        completed_tricks := []
        trump_suit := none
        trump_card := none
        trump_maker := none
        going_alone := none
        dealer_index := (g.dealer_index + 1) % 4 }
    shuffled

/-- `game_logic.py`, `EuchreGame.complete_round`: count tricks per team, score
the round, and either finish the game (a score reached 10) or start the next
round.  `shuffled` is the shuffle used by the redeal of the next round. -/
def EuchreGame.complete_round (g : EuchreGame) (shuffled : List Card) : EuchreGame :=
  let team_tricks : Nat × Nat :=
    g.completed_tricks.foldl
      (fun tt tr =>
        if g.positionOf tr.winner % 2 = 0 then (tt.1 + 1, tt.2) else (tt.1, tt.2 + 1))
      (0, 0)
  let trump_making_team := g.positionOf (g.trump_maker.getD "") % 2
  let winning_team := if team_tricks.1 > team_tricks.2 then 0 else 1
  let tricks_won := if winning_team = 0 then team_tricks.1 else team_tricks.2
  let points :=
    if winning_team = trump_making_team then
      if g.going_alone.isSome then (if tricks_won = 5 then 4 else 1)
      else (if tricks_won = 5 then 2 else 1)
    else 2
  let new_scores :=
    if winning_team = 0 then (g.team_scores.1 + points, g.team_scores.2)
    else (g.team_scores.1, g.team_scores.2 + points)
  let g2 := { g with team_scores := new_scores }
  if 10 ≤ max new_scores.1 new_scores.2 then { g2 with phase := GamePhase.game_complete }
  else g2.start_next_round shuffled

/-- `game_logic.py`, `EuchreGame.complete_trick`: find the first strict
running maximum of `get_card_value` among the 4 played cards, record it as the
winner, archive the trick, let the winner lead, and complete the round after
the fifth trick. -/
def EuchreGame.complete_trick (g : EuchreGame) (shuffled : List Card) : EuchreGame :=
  match g.trump_suit, g.current_trick.cards with
  | some trump, (p0, c0) :: rest =>
    if g.current_trick.cards.length = 4 then
      let leading_suit := g.get_effective_suit c0
      let acc := rest.foldl
        (fun (acc : Nat × Nat × Nat) pc =>
          let v := EuchreGame.get_card_value pc.2 trump leading_suit
          if v > acc.2.1 then (acc.2.2, v, acc.2.2 + 1) else (acc.1, acc.2.1, acc.2.2 + 1))
        (0, EuchreGame.get_card_value c0 trump leading_suit, 1)
      let winner_id := (g.current_trick.cards.getD acc.1 (p0, c0)).1
      let g2 : EuchreGame :=
        { g with
            completed_tricks := g.completed_tricks ++ [{ g.current_trick with winner := winner_id }]
            current_trick := Trick.empty
            current_player_index := g.player_order.indexOf winner_id }
      if g2.completed_tricks.length = 5 then g2.complete_round shuffled else g2
    else g
  | _, _ => g

/-- `game_logic.py`, `EuchreGame.play_card`: `none` models the Python
`return False` with no state change.  `shuffled` is only consumed when this
play finishes the fifth trick of a round that is then redealt. -/
def EuchreGame.play_card (g : EuchreGame) (player_id : String) (card : Card)
    (shuffled : List Card) : Option EuchreGame :=
  if g.can_play_card player_id card then
    let newPlayers := g.players.map
      (fun p => if p.id = player_id then { p with hand := p.hand.erase card } else p)
    let g1 := { g with players := newPlayers }
    let g2 :=
      if g1.current_trick.cards.isEmpty then
        { g1 with current_trick := { g1.current_trick with leader := player_id } }
      else g1
    let g3 :=
      { g2 with current_trick :=
          { g2.current_trick with cards := g2.current_trick.cards ++ [(player_id, card)] } }
    if g3.current_trick.cards.length = 4 then some (g3.complete_trick shuffled)
    else some { g3 with current_player_index := (g3.current_player_index + 1) % 4 }
  else none

/-- `game_logic.py`, `EuchreGame.start_playing_phase`. -/
def EuchreGame.start_playing_phase (g : EuchreGame) : EuchreGame :=
  { g with
      phase := GamePhase.playing
      current_player_index := (g.dealer_index + 1) % 4 }

/-- `game_logic.py`, `EuchreGame.handle_trump_selection(player_id, action, suit)`.
The action is the Python string; `none` models `return False`.  `shuffled` is
only consumed by the redeal after four passes in round 2. -/
def EuchreGame.handle_trump_selection (g : EuchreGame) (player_id action : String)
    (suit : Option Suit) (shuffled : List Card) : Option EuchreGame :=
  if g.phase ≠ GamePhase.trump_selection then none
  else if player_id ≠ g.player_order.getD g.trump_selection_player_index "" then none
  else if action = "order_up" ∧ g.trump_selection_round = 1 then
    match g.trump_card with
    | none => none
    | some tc =>
      some (EuchreGame.start_playing_phase
        { g with
            trump_suit := some tc.suit
            trump_maker := some player_id
            players := appendToHand g.players (g.player_order.getD g.dealer_index "") tc })
  else if action = "name_trump" ∧ g.trump_selection_round = 2 ∧ suit.isSome then
    match suit, g.trump_card with
    | some s, some tc =>
      if s ≠ tc.suit then
        some (EuchreGame.start_playing_phase
          { g with trump_suit := some s, trump_maker := some player_id })
      else none
    | _, _ => none
  else if action = "pass" then
    let newIdx := (g.trump_selection_player_index + 1) % 4
    let g1 := { g with trump_selection_player_index := newIdx }
    if g.trump_selection_round = 1 ∧ newIdx = (g.dealer_index + 1) % 4 then
      some { g1 with trump_selection_round := 2 }
    else if g.trump_selection_round = 2 ∧ newIdx = (g.dealer_index + 1) % 4 then
      some (g1.deal_cards shuffled)
    else some g1
  else none

/-- `game_logic.py`, `EuchreGame.handle_going_alone(player_id, going_alone)`:
only a `player_id` equal to the current `trump_maker` is accepted (no phase
check in the source); `none` models `return False` with no state change. -/
def EuchreGame.handle_going_alone (g : EuchreGame) (player_id : String)
    (going_alone : Bool) : Option EuchreGame :=
  if g.trump_maker = some player_id then
    some { g with going_alone := if going_alone then some player_id else none }
  else none

/-- `game_logic.py`, `EuchreGame.start_game`: with exactly 4 players, move to
the dealing phase and deal; otherwise return with no change (Python returns
`False`). -/
def EuchreGame.start_game (g : EuchreGame) (shuffled : List Card) : EuchreGame :=
  if g.players.length ≠ 4 then g
  else ({ g with phase := GamePhase.dealing }).deal_cards shuffled

/-- `game_logic.py`, `EuchreGame.add_player`: seat a new player (the model
assumes server-generated fresh ids, as the Python dict keyed by id does) and
start the game on the fourth join.  `none` models `return False` on a full
table. -/
def EuchreGame.add_player (g : EuchreGame) (player_id name : String) (is_ai : Bool)
    (shuffled : List Card) : Option EuchreGame :=
  if 4 ≤ g.players.length then none
  else
    let g1 :=
      { g with
          players := g.players ++
            [{ id := player_id, name := name, hand := [], position := g.players.length,
               is_connected := true, is_ai := is_ai }]
          player_order := g.player_order ++ [player_id] }
    if g1.players.length = 4 then some (g1.start_game shuffled) else some g1

/-- `ai_player.py`, `@dataclass AIPersonality`; the float parameters in
`[0,1]` are modelled as rationals. -/
structure AIPersonality where
  name : String
  aggression : ℚ
  conservatism : ℚ
  partnership_focus : ℚ
  risk_tolerance : ℚ
deriving DecidableEq, Repr

/-- `ai_player.py`, `EuchreAI.is_same_color_jack(card, trump_suit)`. -/
def EuchreAI.is_same_color_jack (card : Card) (trump_suit : Suit) : Bool :=
  if card.rank ≠ Rank.jack then false
  else same_color trump_suit card.suit

/-- `ai_player.py`, `EuchreAI.is_trump(card, trump_suit)`. -/
def EuchreAI.is_trump (card : Card) (trump_suit : Suit) : Bool :=
  if card.suit = trump_suit then true
  else card.rank = Rank.jack && EuchreAI.is_same_color_jack card trump_suit

/-- `ai_player.py`, `EuchreAI.get_effective_suit(card, trump_suit)`. -/
def EuchreAI.get_effective_suit (card : Card) (trump_suit : Option Suit) : Suit :=
  match trump_suit with
  | some t =>
      if card.rank = Rank.jack ∧ EuchreAI.is_same_color_jack card t then t else card.suit
  | none => card.suit

/-- `ai_player.py`, `EuchreAI.get_card_value(card, trump_suit)`: unlike the
engine's `EuchreGame.get_card_value` it takes no leading suit, and gives every
non-trump card its rank. -/
def EuchreAI.get_card_value (card : Card) (trump_suit : Suit) : Nat :=
  if card.rank = Rank.jack ∧ card.suit = trump_suit then 100
  else if card.rank = Rank.jack ∧ EuchreAI.is_same_color_jack card trump_suit then 99
  else if card.suit = trump_suit then 50 + card.rank.value
  else card.rank.value

/-- `ai_player.py`, `EuchreAI.evaluate_hand_strength(hand, trump_suit)`; the
accumulator is (strength, trump_count, off_aces).  Each Python float constant
is carried as the exact rational it denotes in the source, written `mkRat`
so that concrete values reduce. -/
def EuchreAI.evaluate_hand_strength (hand : List Card) (trump_suit : Option Suit) : ℚ :=
  match trump_suit with
  | none => 0
  | some t =>
    let st := hand.foldl
      (fun (acc : ℚ × Nat × Nat) c =>
        if EuchreAI.is_trump c t then
          (acc.1 +
            (if c.rank = Rank.jack ∧ c.suit = t then mkRat 1 4
             else if c.rank = Rank.jack ∧ EuchreAI.is_same_color_jack c t then mkRat 1 5
             else if c.rank = Rank.ace then mkRat 3 20
             else mkRat 2 25),
           acc.2.1 + 1, acc.2.2)
        else if c.rank = Rank.ace then (acc.1 + mkRat 1 20, acc.2.1, acc.2.2 + 1)
        else acc)
      (0, 0, 0)
    let strength := st.1 + (if 3 ≤ st.2.1 then mkRat 3 20 else if 2 ≤ st.2.1 then mkRat 2 25 else 0)
    let strength := strength + (st.2.2 : ℚ) * mkRat 3 100
    min strength 1

/-- `ai_player.py`, `EuchreAI.should_go_alone(hand, trump_suit)`.  The call to
`random.random()` is the parameter `r`; the risk-tolerance gate is evaluated
before the bower shortcut, exactly as in the source. -/
def EuchreAI.should_go_alone (p : AIPersonality) (hand : List Card) (trump_suit : Suit)
    (r : ℚ) : Bool :=
  if p.risk_tolerance < mkRat 3 10 then false
  else
    let strength := EuchreAI.evaluate_hand_strength hand (some trump_suit)
    let threshold := mkRat 8 10 - p.risk_tolerance * mkRat 2 10
    let has_right_bower :=
      hand.any (fun c => decide (c.rank = Rank.jack ∧ c.suit = trump_suit))
    let has_left_bower :=
      hand.any (fun c => decide (c.rank = Rank.jack) && EuchreAI.is_same_color_jack c trump_suit)
    let trump_count := hand.countP (fun c => EuchreAI.is_trump c trump_suit)
    if has_right_bower && has_left_bower && decide (3 ≤ trump_count) then true
    else decide (threshold ≤ strength) && decide (r < p.aggression)

/-!
## Concrete fixtures

Concrete states used by witnesses and counterexamples.  `game4` is the state
of a fresh room after four joins, dealt with the identity shuffle
(`create_deck` itself, a legal permutation); the dealer is seat 0 ("a") and
the first bidder seat 1 ("b").
-/

/-- A room after four joins; dealing used the identity shuffle. -/
def game4 : EuchreGame :=
  ((((emptyGame "R").add_player "a" "A" false create_deck).bind
    (fun g => g.add_player "b" "B" false create_deck)).bind
    (fun g => g.add_player "c" "C" false create_deck)).bind
    (fun g => g.add_player "d" "D" true create_deck) |>.getD (emptyGame "R")

/-- `game4` after the first bidder "b" orders up the turned Jack of Spades:
the engine enters the playing phase at once, dealer "a" holding 6 cards. -/
def gAfterOrderUp : EuchreGame :=
  (game4.handle_trump_selection "b" "order_up" none create_deck).getD game4

/-- A low-risk AI personality (`risk_tolerance = 0.2`), legal since the
personality parameters range over `[0,1]`. -/
def lowRisk : AIPersonality :=
  ⟨"LowRisk", mkRat 1 2, mkRat 1 2, mkRat 1 2, mkRat 1 5⟩

/-- A hand holding the right bower, the left bower and a third trump card
for trump = hearts. -/
def bowerHand : List Card :=
  [⟨Suit.hearts, Rank.jack⟩, ⟨Suit.diamonds, Rank.jack⟩, ⟨Suit.hearts, Rank.ace⟩,
   ⟨Suit.clubs, Rank.nine⟩, ⟨Suit.clubs, Rank.ten⟩]

/-- Four seated players with empty hands, for round-scoring fixtures. -/
def seatedPlayers : List Player :=
  [{ id := "a", name := "A", hand := [], position := 0, is_connected := true, is_ai := false },
   { id := "b", name := "B", hand := [], position := 1, is_connected := true, is_ai := false },
   { id := "c", name := "C", hand := [], position := 2, is_connected := true, is_ai := false },
   { id := "d", name := "D", hand := [], position := 3, is_connected := true, is_ai := false }]

/-- A state at the end of a round: five completed tricks, four of them taken
by team 0 ("a" and "c"), trump made by "a". -/
def gRoundDone : EuchreGame :=
  { emptyGame "R" with
      players := seatedPlayers
      player_order := ["a", "b", "c", "d"]
      phase := GamePhase.playing
      trump_suit := some Suit.spades
      trump_maker := some "a"
      completed_tricks :=
        [⟨[], "a", "a"⟩, ⟨[], "a", "c"⟩, ⟨[], "c", "b"⟩, ⟨[], "b", "a"⟩, ⟨[], "a", "c"⟩] }

/-- `game4` moved to round 2 of trump selection with the dealer's own seat
about to pass, so that the next pass wraps and forces the redeal. -/
def gR2 : EuchreGame :=
  { game4 with
      trump_selection_round := 2
      trump_selection_player_index := 0 }

/-- A playing-phase state whose current trick holds four cards, trump spades,
nine of hearts led. -/
def gTrickFull : EuchreGame :=
  { emptyGame "R" with
      players := seatedPlayers
      player_order := ["a", "b", "c", "d"]
      phase := GamePhase.playing
      trump_suit := some Suit.spades
      trump_maker := some "a"
      current_trick :=
        ⟨[("a", ⟨Suit.hearts, Rank.nine⟩), ("b", ⟨Suit.hearts, Rank.ten⟩),
          ("c", ⟨Suit.spades, Rank.jack⟩), ("d", ⟨Suit.diamonds, Rank.nine⟩)], "a", ""⟩ }

/-- One externally triggered mutation of a game, covering every public
operation of `EuchreGame` (shuffles and random draws existentially supplied).
`play_card` already contains trick completion, round scoring and the redeal
of the following round. -/
inductive Step : EuchreGame → EuchreGame → Prop where
  | add_player (g : EuchreGame) (pid name : String) (ai : Bool) (s : List Card)
      (g' : EuchreGame) : g.add_player pid name ai s = some g' → Step g g'
  | start_game (g : EuchreGame) (s : List Card) : Step g (g.start_game s)
  | deal (g : EuchreGame) (s : List Card) : Step g (g.deal_cards s)
  | trump_selection (g : EuchreGame) (pid act : String) (suit : Option Suit)
      (s : List Card) (g' : EuchreGame) :
      g.handle_trump_selection pid act suit s = some g' → Step g g'
  | going_alone (g : EuchreGame) (pid : String) (b : Bool) (g' : EuchreGame) :
      g.handle_going_alone pid b = some g' → Step g g'
  | play (g : EuchreGame) (pid : String) (c : Card) (s : List Card) (g' : EuchreGame) :
      g.play_card pid c s = some g' → Step g g'

/-- The cards of a trick, in play order. -/
def trickCards (tr : Trick) : List Card :=
  tr.cards.map Prod.snd

/-- Every card currently held somewhere in the round: in a hand, in an
archived trick, or in the trick being played. -/
def heldCards (g : EuchreGame) : List Card :=
  g.players.flatMap Player.hand ++ g.completed_tricks.flatMap trickCards ++
    trickCards g.current_trick

/-- The claim's card collection for a round: held cards, the turned trump
card, and the kitty remainder (the deck below the dealt 21 cards). -/
def roundCards (g : EuchreGame) : Multiset Card :=
  (heldCards g : Multiset Card) + (g.trump_card.toList : Multiset Card) +
    (g.deck.drop 21 : Multiset Card)

/-- The amended collection: the turned trump card is counted separately only
while it has not been picked up into a hand (after the dealer pickup it is
already among the held cards). -/
def roundCardsSep (g : EuchreGame) : Multiset Card :=
  (heldCards g : Multiset Card) +
    (match g.trump_card with
     | some tc => if tc ∈ heldCards g then 0 else {tc}
     | none => 0) +
    (g.deck.drop 21 : Multiset Card)

/-- Selector for one of four values by seat order, used to state claims
about the four cards of a completed trick. -/
def nth4 {α : Type} (x0 x1 x2 x3 : α) : Fin 4 → α
  | ⟨0, _⟩ => x0
  | ⟨1, _⟩ => x1
  | ⟨2, _⟩ => x2
  | ⟨3, _⟩ => x3

/-!
## Derived quantities used to state the claims
-/

/-- The score of a team (0 or 1) in a game state. -/
def scoreOf (g : EuchreGame) (team : Nat) : Nat :=
  if team = 0 then g.team_scores.1 else g.team_scores.2

/-- The team of the trump maker, `players[trump_maker].position % 2` in the
source (evaluated by the claims only with the maker seated). -/
def trumpTeam (g : EuchreGame) : Nat :=
  g.positionOf (g.trump_maker.getD "") % 2

/-- How many archived tricks were won by the given team. -/
def teamTrickCount (g : EuchreGame) (team : Nat) : Nat :=
  g.completed_tricks.countP (fun tr => decide (g.positionOf tr.winner % 2 = team))

/-- The pair of team scores that `complete_round` installs, written through
the per-team trick counts. -/
def roundScores (g : EuchreGame) : Nat × Nat :=
  let c0 := g.completed_tricks.countP
      (fun tr => decide (g.positionOf tr.winner % 2 = 0))
  let c1 := g.completed_tricks.countP
      (fun tr => ! decide (g.positionOf tr.winner % 2 = 0))
  let winning := if c0 > c1 then 0 else 1
  let tricks_won := if winning = 0 then c0 else c1
  let points := if winning = trumpTeam g then
      (if g.going_alone.isSome then (if tricks_won = 5 then 4 else 1)
       else (if tricks_won = 5 then 2 else 1))
    else 2
  if winning = 0 then (g.team_scores.1 + points, g.team_scores.2)
  else (g.team_scores.1, g.team_scores.2 + points)

/-!
## Basic computation lemmas
-/

theorem deal_cards_dealer_index (g : EuchreGame) (s : List Card) :
    (g.deal_cards s).dealer_index = g.dealer_index := rfl

theorem deal_cards_team_scores (g : EuchreGame) (s : List Card) :
    (g.deal_cards s).team_scores = g.team_scores := rfl

theorem deal_cards_deck (g : EuchreGame) (s : List Card) :
    (g.deal_cards s).deck = s := rfl

theorem deal_cards_phase (g : EuchreGame) (s : List Card) :
    (g.deal_cards s).phase = GamePhase.trump_selection := rfl

theorem deal_cards_round (g : EuchreGame) (s : List Card) :
    (g.deal_cards s).trump_selection_round = 1 := rfl

theorem deal_cards_tsp (g : EuchreGame) (s : List Card) :
    (g.deal_cards s).trump_selection_player_index = (g.dealer_index + 1) % 4 := rfl

/-!
## C1 — AI versus engine card valuation
-/

/-- C1, counterexample: for the nine of hearts with spades trump and clubs
led, the engine's `get_card_value` gives 0 (off-suit) while the AI's
`get_card_value` gives its rank 9, so the two valuations are not equal for
every card/trump/lead combination. -/
theorem C1_counterexample :
    EuchreAI.get_card_value ⟨Suit.hearts, Rank.nine⟩ Suit.spades ≠
      EuchreGame.get_card_value ⟨Suit.hearts, Rank.nine⟩ Suit.spades Suit.clubs := by
  decide

/-- C1 (amended): the AI's lead-suit-free `get_card_value` agrees with the
engine's `get_card_value` exactly on the cards that are trump (including the
left bower) or whose suit is the leading suit; on every other card the engine
returns 0 while the AI returns the card's rank. -/
theorem C1_card_value_agreement :
    ∀ (c : Card) (t l : Suit),
      EuchreAI.get_card_value c t = EuchreGame.get_card_value c t l ↔
        (EuchreAI.is_trump c t = true ∨ c.suit = l) := by
  decide

/-!
## C2 — order up jumps straight to the playing phase
-/

/-- C2, code evaluated at the failing input: in `game4` (dealer seat 0,
identity shuffle) the first bidder "b" orders up, and the very same
`handle_trump_selection` call returns a state whose phase is already
`playing` while the dealer "a" holds 6 cards; `game_logic.py` offers no
discard operation at all (`main.py` invokes `handle_dealer_discard` and a
`dealer_discard` phase that do not exist in the engine). -/
theorem C2_order_up_skips_discard :
    (game4.handle_trump_selection "b" "order_up" none create_deck).map
      (fun g => (g.phase, ((g.findPlayer "a").map (fun p => p.hand.length)).getD 0)) =
    some (GamePhase.playing, 6) := by
  decide

/-!
## C8 — going alone with both bowers
-/

/-- C8, counterexample: a personality with `risk_tolerance = 0.2` never goes
alone, even with the right bower, the left bower and three trump in hand,
because the source tests `risk_tolerance < 0.3` before the bower shortcut. -/
theorem C8_counterexample :
    (bowerHand.any (fun c => decide (c.rank = Rank.jack ∧ c.suit = Suit.hearts)) = true) ∧
    (bowerHand.any
      (fun c => decide (c.rank = Rank.jack) && EuchreAI.is_same_color_jack c Suit.hearts) = true) ∧
    3 ≤ bowerHand.countP (fun c => EuchreAI.is_trump c Suit.hearts) ∧
    EuchreAI.should_go_alone lowRisk bowerHand Suit.hearts 0 = false := by
  decide

/-- C8 (amended): for every personality whose `risk_tolerance` is at least
0.3, a hand holding both bowers and at least three trump cards makes
`should_go_alone` return `True`, whatever the random draw. -/
theorem C8_go_alone_with_bowers (p : AIPersonality) (hand : List Card) (t : Suit) (r : ℚ)
    (hrt : ¬ p.risk_tolerance < mkRat 3 10)
    (hrb : hand.any (fun c => decide (c.rank = Rank.jack ∧ c.suit = t)) = true)
    (hlb : hand.any
      (fun c => decide (c.rank = Rank.jack) && EuchreAI.is_same_color_jack c t) = true)
    (htc : 3 ≤ hand.countP (fun c => EuchreAI.is_trump c t)) :
    EuchreAI.should_go_alone p hand t r = true := by
  unfold EuchreAI.should_go_alone
  rw [if_neg hrt]
  have hc : decide (3 ≤ hand.countP fun c => EuchreAI.is_trump c t) = true :=
    decide_eq_true htc
  simp only [hrb, hlb, hc, Bool.and_self, if_true]

/-- C8, witness: the predefined personality Ada (`risk_tolerance = 0.6`)
goes alone on `bowerHand`. -/
theorem C8_witness :
    EuchreAI.should_go_alone
      ⟨"Ada", mkRat 7 10, mkRat 3 10, mkRat 4 5, mkRat 3 5⟩ bowerHand Suit.hearts 0 = true :=
  C8_go_alone_with_bowers
    ⟨"Ada", mkRat 7 10, mkRat 3 10, mkRat 4 5, mkRat 3 5⟩ bowerHand Suit.hearts 0
    (by decide) (by decide) (by decide) (by decide)

/-!
## C9 — going alone is not restricted to the pre-play window
-/

/-- C9, counterexample: in `gAfterOrderUp` the playing phase has begun, yet
the trump maker "b" can still submit a going-alone decision successfully, so
the claimed "only before play starts" rejection does not exist. -/
theorem C9_counterexample :
    gAfterOrderUp.phase = GamePhase.playing ∧
    (gAfterOrderUp.handle_going_alone "b" true).isSome = true := by
  decide

/-- C9 (amended): `handle_going_alone` succeeds exactly when the caller is
the current trump maker, in any phase; every other caller is rejected with no
state change. -/
theorem C9_going_alone_trump_maker_only (g : EuchreGame) (pid : String) (b : Bool) :
    (g.trump_maker = some pid →
      g.handle_going_alone pid b =
        some { g with going_alone := if b then some pid else none }) ∧
    (g.trump_maker ≠ some pid → g.handle_going_alone pid b = none) := by
  constructor
  · intro h
    simp [EuchreGame.handle_going_alone, h]
  · intro h
    simp [EuchreGame.handle_going_alone, h]

/-- C9, witness: the trump maker "b" of `gAfterOrderUp` successfully goes
alone mid-play; the non-maker "a" is rejected. -/
theorem C9_witness :
    gAfterOrderUp.handle_going_alone "b" true =
      some { gAfterOrderUp with going_alone := some "b" } ∧
    gAfterOrderUp.handle_going_alone "a" true = none := by
  constructor
  · have h := (C9_going_alone_trump_maker_only gAfterOrderUp "b" true).1 (by decide)
    simpa using h
  · exact (C9_going_alone_trump_maker_only gAfterOrderUp "a" true).2 (by decide)

/-!
## C10 — all-pass redeal in round 2
-/

/-- C10: when the pass that wraps round 2 back to the first bidder triggers
the redeal, the dealer and the team scores are untouched, the deck becomes
the fresh shuffle (a full 24-card deck), and trump selection restarts in
round 1 at the seat left of the dealer. -/
theorem C10_round2_all_pass_redeal (g : EuchreGame) (pid : String) (s : List Card)
    (g' : EuchreGame)
    (hph : g.phase = GamePhase.trump_selection)
    (hr : g.trump_selection_round = 2)
    (hpid : pid = g.player_order.getD g.trump_selection_player_index "")
    (hwrap : (g.trump_selection_player_index + 1) % 4 = (g.dealer_index + 1) % 4)
    (hs : s.Perm create_deck)
    (hres : g.handle_trump_selection pid "pass" none s = some g') :
    g'.dealer_index = g.dealer_index ∧
    g'.team_scores = g.team_scores ∧
    g'.deck = s ∧
    g'.deck.Perm create_deck ∧
    g'.trump_selection_round = 1 ∧
    g'.trump_selection_player_index = (g.dealer_index + 1) % 4 := by
  unfold EuchreGame.handle_trump_selection at hres
  rw [if_neg (by simp [hph]), if_neg (by simp [hpid])] at hres
  rw [if_neg (by simp), if_neg (by simp)] at hres
  rw [if_pos rfl] at hres
  rw [if_neg (by simp [hr]), if_pos (by simp [hr, hwrap])] at hres
  cases hres
  refine ⟨rfl, rfl, rfl, hs, rfl, rfl⟩

/-- C10, witness: a concrete round-2 state in which the dealer seat's pass
wraps, applied through the theorem. -/
theorem C10_witness :
    ∃ g', gR2.handle_trump_selection "a" "pass" none create_deck = some g' ∧
      g'.dealer_index = 0 ∧ g'.trump_selection_round = 1 := by
  refine ⟨_, rfl, ?_, ?_⟩
  · exact (C10_round2_all_pass_redeal gR2 "a" create_deck _ (by decide) (by decide)
      (by decide) (by decide) (List.Perm.refl _) rfl).1
  · exact (C10_round2_all_pass_redeal gR2 "a" create_deck _ (by decide) (by decide)
      (by decide) (by decide) (List.Perm.refl _) rfl).2.2.2.2.1

/-!
## C4 — follow-suit legality
-/

/-- C4: `can_play_card` rejects cards not in the holder's hand, accepts any
held card when leading, and otherwise, with the lead suit taken to be the
effective suit of the trick's first card, accepts exactly the held cards of
that effective suit when the player holds any, else every held card. -/
theorem C4_can_play_card (g : EuchreGame) (pid : String) (card : Card) (p : Player)
    (hp : g.findPlayer pid = some p) :
    (card ∉ p.hand → g.can_play_card pid card = false) ∧
    (card ∈ p.hand → g.current_trick.cards = [] → g.can_play_card pid card = true) ∧
    (∀ q0 c0 rest, card ∈ p.hand → g.current_trick.cards = (q0, c0) :: rest →
      ((∃ c ∈ p.hand, g.get_effective_suit c = g.get_effective_suit c0) →
        (g.can_play_card pid card = true ↔
          g.get_effective_suit card = g.get_effective_suit c0)) ∧
      ((¬ ∃ c ∈ p.hand, g.get_effective_suit c = g.get_effective_suit c0) →
        g.can_play_card pid card = true)) := by
  refine ⟨?_, ?_, ?_⟩
  · intro h
    simp [EuchreGame.can_play_card, hp, h]
  · intro h he
    simp [EuchreGame.can_play_card, hp, h, he]
  · intro q0 c0 rest hmem htr
    constructor
    · intro hx
      have hany : (p.hand.any fun c =>
          decide (g.get_effective_suit c = g.get_effective_suit c0)) = true := by
        simpa [List.any_eq_true] using hx
      simp [EuchreGame.can_play_card, hp, hmem, htr, hany]
    · intro hx
      have hany : (p.hand.any fun c =>
          decide (g.get_effective_suit c = g.get_effective_suit c0)) = false := by
        simpa [List.any_eq_false] using fun c hc => (fun h => hx ⟨c, hc, h⟩)
      simp [EuchreGame.can_play_card, hp, hmem, htr, hany]

/-- C4, witness: in `game4` the seated player "a" may lead the nine of
hearts from their dealt hand. -/
theorem C4_witness :
    game4.can_play_card "a" ⟨Suit.hearts, Rank.nine⟩ = true :=
  (C4_can_play_card game4 "a" ⟨Suit.hearts, Rank.nine⟩
      { id := "a", name := "A",
        hand := [⟨Suit.hearts, Rank.nine⟩, ⟨Suit.hearts, Rank.king⟩,
                 ⟨Suit.diamonds, Rank.jack⟩, ⟨Suit.clubs, Rank.nine⟩,
                 ⟨Suit.clubs, Rank.king⟩],
        position := 0, is_connected := true, is_ai := false }
      (by decide)).2.1 (by decide) (by decide)

/-!
## C3 — round scoring
-/

/-- The trick-counting fold of `complete_round` computes the two `countP`
values of its predicate. -/
theorem foldl_count_split {α : Type} (q : α → Prop) [DecidablePred q]
    (l : List α) (a b : Nat) :
    l.foldl (fun tt x => if q x then (tt.1 + 1, tt.2) else (tt.1, tt.2 + 1)) (a, b) =
      (a + l.countP (fun x => decide (q x)), b + l.countP (fun x => ! decide (q x))) := by
  induction l generalizing a b with
  | nil => simp
  | cons x xs ih =>
    by_cases h : q x <;>
      simp [h, ih, List.countP_cons, Prod.ext_iff] <;> omega

/-- `start_next_round` does not touch the team scores. -/
theorem start_next_round_team_scores (g : EuchreGame) (s : List Card) :
    (g.start_next_round s).team_scores = g.team_scores := rfl

/-- A Bool predicate and its negation count the whole list. -/
theorem countP_not_add {α : Type} (p : α → Bool) (l : List α) :
    l.countP p + l.countP (fun a => ! p a) = l.length := by
  induction l with
  | nil => simp
  | cons x xs ih =>
    by_cases h : p x = true <;> simp [List.countP_cons, h, ← ih] <;> omega

/-- The team scores produced by `complete_round`, expressed through the two
per-team trick counts. -/
theorem complete_round_team_scores (g : EuchreGame) (s : List Card) :
    (g.complete_round s).team_scores = roundScores g := by
  simp only [EuchreGame.complete_round, roundScores, trumpTeam,
    foldl_count_split (fun tr : Trick => g.positionOf tr.winner % 2 = 0), Nat.zero_add]
  rw [apply_ite EuchreGame.team_scores]
  simp [EuchreGame.start_next_round, EuchreGame.deal_cards]

/-- C3: when the five tricks of a round are scored, the trump-making team
earns 4 points for a 5-trick sweep while going alone, 2 points for a sweep
otherwise, 1 point for 3 or 4 tricks, and the opposing team earns 2 points
when the trump makers took at most 2 tricks; exactly those points are added,
the other team's score staying put. -/
theorem C3_round_scoring (g : EuchreGame) (s : List Card)
    (hlen : g.completed_tricks.length = 5) :
    (teamTrickCount g (trumpTeam g) = 5 → g.going_alone.isSome →
      scoreOf (g.complete_round s) (trumpTeam g) = scoreOf g (trumpTeam g) + 4 ∧
      scoreOf (g.complete_round s) (1 - trumpTeam g) = scoreOf g (1 - trumpTeam g)) ∧
    (teamTrickCount g (trumpTeam g) = 5 → g.going_alone = none →
      scoreOf (g.complete_round s) (trumpTeam g) = scoreOf g (trumpTeam g) + 2 ∧
      scoreOf (g.complete_round s) (1 - trumpTeam g) = scoreOf g (1 - trumpTeam g)) ∧
    (3 ≤ teamTrickCount g (trumpTeam g) → teamTrickCount g (trumpTeam g) ≤ 4 →
      scoreOf (g.complete_round s) (trumpTeam g) = scoreOf g (trumpTeam g) + 1 ∧
      scoreOf (g.complete_round s) (1 - trumpTeam g) = scoreOf g (1 - trumpTeam g)) ∧
    (teamTrickCount g (trumpTeam g) ≤ 2 →
      scoreOf (g.complete_round s) (1 - trumpTeam g) = scoreOf g (1 - trumpTeam g) + 2 ∧
      scoreOf (g.complete_round s) (trumpTeam g) = scoreOf g (trumpTeam g)) := by
  have hch := complete_round_team_scores g s
  unfold roundScores at hch
  set c0 := g.completed_tricks.countP
      (fun tr => decide (g.positionOf tr.winner % 2 = 0)) with hc0def
  set c1 := g.completed_tricks.countP
      (fun tr => ! decide (g.positionOf tr.winner % 2 = 0)) with hc1def
  have hsum : c0 + c1 = 5 := by
    rw [hc0def, hc1def, countP_not_add, hlen]
  have hodd : (fun tr : Trick => ! decide (g.positionOf tr.winner % 2 = 0)) =
      (fun tr : Trick => decide (g.positionOf tr.winner % 2 = 1)) := by
    funext tr
    rcases Nat.mod_two_eq_zero_or_one (g.positionOf tr.winner) with h | h <;> simp [h]
  have hT : trumpTeam g = 0 ∨ trumpTeam g = 1 :=
    Nat.mod_two_eq_zero_or_one (g.positionOf (g.trump_maker.getD ""))
  rcases hT with hT | hT
  all_goals rw [hT]
  all_goals simp only [teamTrickCount, hT, ← hodd, ← hc0def, ← hc1def]
  · refine ⟨?_, ?_, ?_, ?_⟩
    · intro hn ha
      have hc1z : c1 = 0 := by omega
      simp [scoreOf, hch, hn, hc1z, ha, hT]
    · intro hn ha
      have hc1z : c1 = 0 := by omega
      simp [scoreOf, hch, hn, hc1z, ha, hT]
    · intro hn3 hn4
      have hgt : c1 < c0 := by omega
      have hne : ¬ c0 = 5 := by omega
      simp [scoreOf, hch, if_pos hgt, hne, hT]
    · intro hn
      have hng : ¬ (c1 < c0) := by omega
      simp [scoreOf, hch, if_neg hng, hT]
  · refine ⟨?_, ?_, ?_, ?_⟩
    · intro hn ha
      have hc0z : c0 = 0 := by omega
      have hng : ¬ (c1 < c0) := by omega
      simp [scoreOf, hch, hn, hc0z, ha, if_neg hng, hT]
    · intro hn ha
      have hc0z : c0 = 0 := by omega
      have hng : ¬ (c1 < c0) := by omega
      simp [scoreOf, hch, hn, hc0z, ha, if_neg hng, hT]
    · intro hn3 hn4
      have hng : ¬ (c1 < c0) := by omega
      have hne : ¬ c1 = 5 := by omega
      simp [scoreOf, hch, if_neg hng, hne, hT]
    · intro hn
      have hgt : c1 < c0 := by omega
      simp [scoreOf, hch, if_pos hgt, hT]

/-- C3, witness: in `gRoundDone` team 0 made trump and took four of the five
tricks, earning exactly one point. -/
theorem C3_witness :
    scoreOf (gRoundDone.complete_round create_deck) 0 = scoreOf gRoundDone 0 + 1 ∧
    scoreOf (gRoundDone.complete_round create_deck) 1 = scoreOf gRoundDone 1 := by
  have h := (C3_round_scoring gRoundDone create_deck (by decide)).2.2.1
    (by decide) (by decide)
  have hT : trumpTeam gRoundDone = 0 := by decide
  rw [hT] at h
  simpa using h

/-!
## C6 — score monotonicity and termination
-/

/-- `start_next_round` always lands in trump selection. -/
theorem start_next_round_phase (g : EuchreGame) (s : List Card) :
    (g.start_next_round s).phase = GamePhase.trump_selection := rfl

/-- The phase `complete_round` installs, through `roundScores`. -/
theorem complete_round_phase_eq (g : EuchreGame) (s : List Card) :
    (g.complete_round s).phase =
      (if 10 ≤ max (roundScores g).1 (roundScores g).2 then GamePhase.game_complete
       else GamePhase.trump_selection) := by
  conv_lhs => unfold EuchreGame.complete_round
  rw [apply_ite EuchreGame.phase]
  simp only [roundScores, trumpTeam,
    foldl_count_split (fun tr : Trick => g.positionOf tr.winner % 2 = 0), Nat.zero_add,
    start_next_round_phase]

/-- `complete_round` finishes the game exactly when the updated scores reach
10. -/
theorem complete_round_complete_iff (g : EuchreGame) (s : List Card) :
    ((g.complete_round s).phase = GamePhase.game_complete ↔
      10 ≤ max (g.complete_round s).team_scores.1 (g.complete_round s).team_scores.2) := by
  rw [complete_round_phase_eq, complete_round_team_scores]
  by_cases h : 10 ≤ max (roundScores g).1 (roundScores g).2 <;> simp [h]

/-- When `complete_round` does not finish the game it deals the next round. -/
theorem complete_round_phase_or (g : EuchreGame) (s : List Card) :
    (g.complete_round s).phase = GamePhase.game_complete ∨
      (g.complete_round s).phase = GamePhase.trump_selection := by
  rw [complete_round_phase_eq]
  by_cases h : 10 ≤ max (roundScores g).1 (roundScores g).2 <;> simp [h]

/-- `complete_round` never lowers either score. -/
theorem complete_round_mono (g : EuchreGame) (s : List Card) :
    g.team_scores.1 ≤ (g.complete_round s).team_scores.1 ∧
    g.team_scores.2 ≤ (g.complete_round s).team_scores.2 := by
  rw [complete_round_team_scores g s]
  unfold roundScores
  by_cases hw :
      List.countP (fun tr => ! decide (g.positionOf tr.winner % 2 = 0)) g.completed_tricks <
        List.countP (fun tr => decide (g.positionOf tr.winner % 2 = 0)) g.completed_tricks <;>
    simp [hw]

/-- The round gate at the end of `complete_trick`: whatever the completion
test decides, the scores never drop and the game only completes through
`complete_round` with a score at 10. -/
theorem round_gate_step (g2 : EuchreGame) (s : List Card) (b : Prop) [Decidable b]
    (ts : Nat × Nat) (ph : GamePhase) (hts : g2.team_scores = ts) (hph : g2.phase = ph) :
    (ts.1 ≤ (if b then g2.complete_round s else g2).team_scores.1 ∧
     ts.2 ≤ (if b then g2.complete_round s else g2).team_scores.2) ∧
    ((if b then g2.complete_round s else g2).phase = GamePhase.game_complete →
      ph = GamePhase.game_complete ∨
      10 ≤ max (if b then g2.complete_round s else g2).team_scores.1
        (if b then g2.complete_round s else g2).team_scores.2) := by
  subst hts
  subst hph
  by_cases h5 : b
  · rw [if_pos h5]
    refine ⟨complete_round_mono _ _, fun h => Or.inr ?_⟩
    exact (complete_round_complete_iff _ _).mp h
  · rw [if_neg h5]
    exact ⟨⟨Nat.le_refl _, Nat.le_refl _⟩, fun h => Or.inl h⟩

/-- `complete_trick` never lowers a score, and can only finish the game with
a score at 10 (or from an already finished state). -/
theorem complete_trick_step (g : EuchreGame) (s : List Card) :
    (g.team_scores.1 ≤ (g.complete_trick s).team_scores.1 ∧
     g.team_scores.2 ≤ (g.complete_trick s).team_scores.2) ∧
    ((g.complete_trick s).phase = GamePhase.game_complete →
      g.phase = GamePhase.game_complete ∨
      10 ≤ max (g.complete_trick s).team_scores.1 (g.complete_trick s).team_scores.2) := by
  unfold EuchreGame.complete_trick
  rcases htr : g.trump_suit with _ | t <;>
    rcases hcc : g.current_trick.cards with _ | ⟨⟨p0, c0⟩, rest⟩
  · exact ⟨⟨Nat.le_refl _, Nat.le_refl _⟩, fun h => Or.inl h⟩
  · exact ⟨⟨Nat.le_refl _, Nat.le_refl _⟩, fun h => Or.inl h⟩
  · exact ⟨⟨Nat.le_refl _, Nat.le_refl _⟩, fun h => Or.inl h⟩
  · dsimp only
    by_cases h4 : ((p0, c0) :: rest : List (String × Card)).length = 4
    · rw [if_pos h4]
      refine round_gate_step _ s _ g.team_scores g.phase ?_ ?_ <;> rfl
    · rw [if_neg h4]
      exact ⟨⟨Nat.le_refl _, Nat.le_refl _⟩, fun h => Or.inl h⟩

/-- A successful `play_card` either stays inside the trick (scores and phase
untouched) or completes the trick from an intermediate state with the same
scores and phase. -/
theorem play_card_cases (g : EuchreGame) (pid : String) (c : Card) (s : List Card)
    (g' : EuchreGame) (h : g.play_card pid c s = some g') :
    (g'.team_scores = g.team_scores ∧ g'.phase = g.phase) ∨
    (∃ gm : EuchreGame, g' = gm.complete_trick s ∧ gm.team_scores = g.team_scores ∧
      gm.phase = g.phase) := by
  unfold EuchreGame.play_card at h
  split at h
  · simp only [] at h
    by_cases hE : g.current_trick.cards.isEmpty = true
    · rw [if_pos hE] at h
      split at h
      · cases h
        exact Or.inr ⟨_, rfl, rfl, rfl⟩
      · cases h
        exact Or.inl ⟨rfl, rfl⟩
    · rw [if_neg hE] at h
      split at h
      · cases h
        exact Or.inr ⟨_, rfl, rfl, rfl⟩
      · cases h
        exact Or.inl ⟨rfl, rfl⟩
  · exact absurd h (by simp)

/-- Successful trump selection keeps the scores and never finishes the
game. -/
theorem handle_trump_selection_step (g : EuchreGame) (pid act : String)
    (suit : Option Suit) (s : List Card) (g' : EuchreGame)
    (h : g.handle_trump_selection pid act suit s = some g') :
    g'.team_scores = g.team_scores ∧ g'.phase ≠ GamePhase.game_complete := by
  unfold EuchreGame.handle_trump_selection at h
  by_cases h1 : g.phase ≠ GamePhase.trump_selection
  · rw [if_pos h1] at h
    exact absurd h (by simp)
  · rw [if_neg h1] at h
    simp only [ne_eq, not_not] at h1
    by_cases h2 : pid ≠ g.player_order.getD g.trump_selection_player_index ""
    · rw [if_pos h2] at h
      exact absurd h (by simp)
    · rw [if_neg h2] at h
      by_cases h3 : act = "order_up" ∧ g.trump_selection_round = 1
      · rw [if_pos h3] at h
        split at h
        · exact absurd h (by simp)
        · cases h
          exact ⟨rfl, by simp [EuchreGame.start_playing_phase]⟩
      · rw [if_neg h3] at h
        by_cases h4 : act = "name_trump" ∧ g.trump_selection_round = 2 ∧ suit.isSome
        · rw [if_pos h4] at h
          split at h
          · split at h
            · cases h
              exact ⟨rfl, by simp [EuchreGame.start_playing_phase]⟩
            · exact absurd h (by simp)
          · exact absurd h (by simp)
        · rw [if_neg h4] at h
          by_cases h6 : act = "pass"
          · rw [if_pos h6] at h
            simp only [] at h
            by_cases h7 : g.trump_selection_round = 1 ∧
                (g.trump_selection_player_index + 1) % 4 = (g.dealer_index + 1) % 4
            · rw [if_pos h7] at h
              cases h
              exact ⟨rfl, by simp [h1]⟩
            · rw [if_neg h7] at h
              by_cases h8 : g.trump_selection_round = 2 ∧
                  (g.trump_selection_player_index + 1) % 4 = (g.dealer_index + 1) % 4
              · rw [if_pos h8] at h
                cases h
                exact ⟨deal_cards_team_scores _ _, by simp [deal_cards_phase]⟩
              · rw [if_neg h8] at h
                cases h
                exact ⟨rfl, by simp [h1]⟩
          · rw [if_neg h6] at h
            exact absurd h (by simp)

/-- `start_game` keeps the scores and can only move the phase to trump
selection. -/
theorem start_game_step (g : EuchreGame) (s : List Card) :
    (g.start_game s).team_scores = g.team_scores ∧
    ((g.start_game s).phase = g.phase ∨
      (g.start_game s).phase = GamePhase.trump_selection) := by
  unfold EuchreGame.start_game
  split
  · exact ⟨rfl, Or.inl rfl⟩
  · exact ⟨deal_cards_team_scores _ _, Or.inr (deal_cards_phase _ _)⟩

/-- A successful join keeps the scores and can only move the phase to
dealing-then-trump-selection. -/
theorem add_player_step (g : EuchreGame) (pid name : String) (ai : Bool)
    (s : List Card) (g' : EuchreGame) (h : g.add_player pid name ai s = some g') :
    g'.team_scores = g.team_scores ∧
    (g'.phase = g.phase ∨ g'.phase = GamePhase.trump_selection) := by
  unfold EuchreGame.add_player at h
  split at h
  · exact absurd h (by simp)
  · simp only [] at h
    split at h
    · cases h
      exact start_game_step _ s
    · cases h
      exact ⟨rfl, Or.inl rfl⟩

/-- C6: no operation ever lowers a team score; the game-complete phase is
only ever entered by a round scoring that lifted some score to 10, at the
moment it does so; and when scoring leaves both scores below 10 the next
round is dealt instead. -/
theorem C6_monotone_scores_and_termination :
    (∀ g g' : EuchreGame, Step g g' →
      g.team_scores.1 ≤ g'.team_scores.1 ∧ g.team_scores.2 ≤ g'.team_scores.2) ∧
    (∀ g g' : EuchreGame, Step g g' → g.phase ≠ GamePhase.game_complete →
      g'.phase = GamePhase.game_complete →
      10 ≤ max g'.team_scores.1 g'.team_scores.2) ∧
    (∀ (g : EuchreGame) (s : List Card),
      ((g.complete_round s).phase = GamePhase.game_complete ↔
        10 ≤ max (g.complete_round s).team_scores.1 (g.complete_round s).team_scores.2)) ∧
    (∀ (g : EuchreGame) (s : List Card),
      max (g.complete_round s).team_scores.1 (g.complete_round s).team_scores.2 < 10 →
      (g.complete_round s).phase = GamePhase.trump_selection) := by
  have hstep : ∀ g g' : EuchreGame, Step g g' →
      (g.team_scores.1 ≤ g'.team_scores.1 ∧ g.team_scores.2 ≤ g'.team_scores.2) ∧
      (g.phase ≠ GamePhase.game_complete → g'.phase = GamePhase.game_complete →
        10 ≤ max g'.team_scores.1 g'.team_scores.2) := by
    intro g g' st
    cases st with
    | add_player pid name ai s gx h =>
        obtain ⟨hsc, hph⟩ := add_player_step g pid name ai s g' h
        refine ⟨by simp [hsc], fun h1 h2 => ?_⟩
        rcases hph with hph | hph
        · exact absurd (hph.symm.trans h2) h1
        · exact absurd (hph.symm.trans h2) (by simp)
    | start_game s =>
        obtain ⟨hsc, hph⟩ := start_game_step g s
        refine ⟨by simp [hsc], fun h1 h2 => ?_⟩
        rcases hph with hph | hph
        · exact absurd (hph.symm.trans h2) h1
        · exact absurd (hph.symm.trans h2) (by simp)
    | deal s =>
        refine ⟨by simp [deal_cards_team_scores], fun h1 h2 => ?_⟩
        exact absurd ((deal_cards_phase g s).symm.trans h2) (by simp)
    | trump_selection pid act suit s gx h =>
        obtain ⟨hsc, hph⟩ := handle_trump_selection_step g pid act suit s g' h
        exact ⟨by simp [hsc], fun h1 h2 => absurd h2 hph⟩
    | going_alone pid b gx h =>
        unfold EuchreGame.handle_going_alone at h
        split at h
        · cases h
          exact ⟨⟨Nat.le_refl _, Nat.le_refl _⟩, fun h1 h2 => absurd h2 h1⟩
        · exact absurd h (by simp)
    | play pid c s gx h =>
        rcases play_card_cases g pid c s g' h with ⟨hsc, hph⟩ | ⟨gm, hg, hsc, hph⟩
        · exact ⟨by simp [hsc], fun h1 h2 => absurd h2 (hph.symm ▸ h1)⟩
        · subst hg
          obtain ⟨hmono, hcmp⟩ := complete_trick_step gm s
          refine ⟨⟨hsc ▸ hmono.1, hsc ▸ hmono.2⟩, fun h1 h2 => ?_⟩
          rcases hcmp h2 with hx | hx
          · exact absurd (hph.symm.trans hx) h1
          · exact hx
  refine ⟨fun g g' st => (hstep g g' st).1, fun g g' st => (hstep g g' st).2,
    complete_round_complete_iff, ?_⟩
  intro g s hlt
  rcases complete_round_phase_or g s with h | h
  · exact absurd ((complete_round_complete_iff g s).mp h) (by omega)
  · exact h

/-- C6, witness: one concrete step (the deal of a fresh four-player room)
does not lower either score. -/
theorem C6_witness :
    game4.team_scores.1 ≤ (game4.deal_cards create_deck).team_scores.1 ∧
    game4.team_scores.2 ≤ (game4.deal_cards create_deck).team_scores.2 :=
  C6_monotone_scores_and_termination.1 game4 (game4.deal_cards create_deck)
    (Step.deal game4 create_deck)

/-!
## C5 — the trick winner is the unique maximum
-/

/-- The card led always has positive value under its own effective suit. -/
theorem lead_value_pos : ∀ (t : Suit) (c : Card),
    0 < EuchreGame.get_card_value c t
      (if c.rank = Rank.jack ∧ same_color t c.suit then t else c.suit) := by
  decide

/-- Two distinct cards can only share a `get_card_value` at value 0. -/
theorem get_card_value_inj : ∀ (t l : Suit) (c c' : Card), c ≠ c' →
    EuchreGame.get_card_value c t l = EuchreGame.get_card_value c' t l →
    EuchreGame.get_card_value c t l = 0 := by
  decide

/-- Distinct cards with a positive upper value compare strictly. -/
theorem get_card_value_lt (t l : Suit) (x y : Card) (hxy : x ≠ y)
    (hle : EuchreGame.get_card_value x t l ≤ EuchreGame.get_card_value y t l)
    (hpos : 0 < EuchreGame.get_card_value y t l) :
    EuchreGame.get_card_value x t l < EuchreGame.get_card_value y t l := by
  rcases Nat.lt_or_eq_of_le hle with h | h
  · exact h
  · have h0 := get_card_value_inj t l x y hxy h
    omega

/-- C5: completing a 4-card trick of distinct cards records as winner the
player of the unique strictly maximal card under the round's trump and the
lead suit of the first card, and that winner becomes the next leader. -/
theorem C5_trick_winner (g : EuchreGame) (s : List Card) (t : Suit)
    (p0 p1 p2 p3 : String) (c0 c1 c2 c3 : Card)
    (ht : g.trump_suit = some t)
    (hct : g.current_trick.cards = [(p0, c0), (p1, c1), (p2, c2), (p3, c3)])
    (hnc : g.completed_tricks.length ≤ 3)
    (hnd : [c0, c1, c2, c3].Nodup) :
    ∃ i : Fin 4,
      (∀ j : Fin 4, j ≠ i →
        EuchreGame.get_card_value (nth4 c0 c1 c2 c3 j) t (g.get_effective_suit c0) <
        EuchreGame.get_card_value (nth4 c0 c1 c2 c3 i) t (g.get_effective_suit c0)) ∧
      (g.complete_trick s).completed_tricks =
        g.completed_tricks ++ [{ g.current_trick with winner := nth4 p0 p1 p2 p3 i }] ∧
      (g.complete_trick s).current_player_index =
        g.player_order.indexOf (nth4 p0 p1 p2 p3 i) := by
  have hls : g.get_effective_suit c0 =
      (if c0.rank = Rank.jack ∧ same_color t c0.suit then t else c0.suit) := by
    unfold EuchreGame.get_effective_suit
    rw [ht]
  have hv0 : 0 < EuchreGame.get_card_value c0 t (g.get_effective_suit c0) := by
    rw [hls]
    exact lead_value_pos t c0
  have hnd' : (c0 ≠ c1 ∧ c0 ≠ c2 ∧ c0 ≠ c3) ∧ (c1 ≠ c2 ∧ c1 ≠ c3) ∧ c2 ≠ c3 := by
    simpa [List.nodup_cons] using hnd
  obtain ⟨⟨h01, h02, h03⟩, ⟨h12, h13⟩, h23⟩ := hnd'
  have h5 : ∀ tr : Trick, ¬ ((g.completed_tricks ++ [tr]).length = 5) := by
    intro tr
    simp only [List.length_append, List.length_singleton]
    omega
  have h4 : ¬ (g.completed_tricks.length = 4) := by omega
  set ls := g.get_effective_suit c0 with hlsdef
  unfold EuchreGame.complete_trick
  rw [ht, hct]
  by_cases h1 : EuchreGame.get_card_value c0 t ls < EuchreGame.get_card_value c1 t ls
  · by_cases h2 : EuchreGame.get_card_value c1 t ls < EuchreGame.get_card_value c2 t ls
    · by_cases h3 : EuchreGame.get_card_value c2 t ls < EuchreGame.get_card_value c3 t ls
      · simp only [List.foldl, List.length_cons, List.length_nil, h1, h2, h3, h5,
          if_true, if_false, ite_true, ite_false, List.getD, List.get?]
        refine ⟨⟨3, by omega⟩, fun j hj => ?_, by simp [nth4, h5, h4], by simp [nth4, h5, h4]⟩
        fin_cases j <;> simp_all [nth4] <;> omega
      · simp only [List.foldl, h1, h2, h3, if_true, if_false, ite_true, ite_false]
        refine ⟨⟨2, by omega⟩, fun j hj => ?_, by simp [nth4, h5, h4], by simp [nth4, h5, h4]⟩
        have hx := get_card_value_lt t ls c3 c2 (Ne.symm h23) (Nat.le_of_not_lt h3) (by omega)
        fin_cases j <;> simp_all [nth4] <;> omega
    · by_cases h3 : EuchreGame.get_card_value c1 t ls < EuchreGame.get_card_value c3 t ls
      · simp only [List.foldl, h1, h2, h3, if_true, if_false, ite_true, ite_false]
        refine ⟨⟨3, by omega⟩, fun j hj => ?_, by simp [nth4, h5, h4], by simp [nth4, h5, h4]⟩
        fin_cases j <;> simp_all [nth4] <;> omega
      · simp only [List.foldl, h1, h2, h3, if_true, if_false, ite_true, ite_false]
        refine ⟨⟨1, by omega⟩, fun j hj => ?_, by simp [nth4, h5, h4], by simp [nth4, h5, h4]⟩
        have hx2 := get_card_value_lt t ls c2 c1 (Ne.symm h12) (Nat.le_of_not_lt h2) (by omega)
        have hx3 := get_card_value_lt t ls c3 c1 (Ne.symm h13) (Nat.le_of_not_lt h3) (by omega)
        fin_cases j <;> simp_all [nth4]
  · by_cases h2 : EuchreGame.get_card_value c0 t ls < EuchreGame.get_card_value c2 t ls
    · by_cases h3 : EuchreGame.get_card_value c2 t ls < EuchreGame.get_card_value c3 t ls
      · simp only [List.foldl, h1, h2, h3, if_true, if_false, ite_true, ite_false]
        refine ⟨⟨3, by omega⟩, fun j hj => ?_, by simp [nth4, h5, h4], by simp [nth4, h5, h4]⟩
        have hx1 := get_card_value_lt t ls c1 c0 (Ne.symm h01) (Nat.le_of_not_lt h1) hv0
        fin_cases j <;> simp_all [nth4] <;> omega
      · simp only [List.foldl, h1, h2, h3, if_true, if_false, ite_true, ite_false]
        refine ⟨⟨2, by omega⟩, fun j hj => ?_, by simp [nth4, h5, h4], by simp [nth4, h5, h4]⟩
        have hx1 := get_card_value_lt t ls c1 c0 (Ne.symm h01) (Nat.le_of_not_lt h1) hv0
        have hx3 := get_card_value_lt t ls c3 c2 (Ne.symm h23) (Nat.le_of_not_lt h3) (by omega)
        fin_cases j <;> simp_all [nth4] <;> omega
    · by_cases h3 : EuchreGame.get_card_value c0 t ls < EuchreGame.get_card_value c3 t ls
      · simp only [List.foldl, h1, h2, h3, if_true, if_false, ite_true, ite_false]
        refine ⟨⟨3, by omega⟩, fun j hj => ?_, by simp [nth4, h5, h4], by simp [nth4, h5, h4]⟩
        have hx1 := get_card_value_lt t ls c1 c0 (Ne.symm h01) (Nat.le_of_not_lt h1) hv0
        have hx2 := get_card_value_lt t ls c2 c0 (Ne.symm h02) (Nat.le_of_not_lt h2) hv0
        fin_cases j <;> simp_all [nth4] <;> omega
      · simp only [List.foldl, h1, h2, h3, if_true, if_false, ite_true, ite_false]
        refine ⟨⟨0, by omega⟩, fun j hj => ?_, by simp [nth4, h5, h4], by simp [nth4, h5, h4]⟩
        have hx1 := get_card_value_lt t ls c1 c0 (Ne.symm h01) (Nat.le_of_not_lt h1) hv0
        have hx2 := get_card_value_lt t ls c2 c0 (Ne.symm h02) (Nat.le_of_not_lt h2) hv0
        have hx3 := get_card_value_lt t ls c3 c0 (Ne.symm h03) (Nat.le_of_not_lt h3) hv0
        fin_cases j <;> simp_all [nth4]

/-- C5, witness: in `gTrickFull` (trump spades, nine of hearts led, right
bower played third) the theorem applies to the four concrete cards. -/
theorem C5_witness :
    ∃ i : Fin 4,
      (∀ j : Fin 4, j ≠ i →
        EuchreGame.get_card_value
          (nth4 ⟨Suit.hearts, Rank.nine⟩ ⟨Suit.hearts, Rank.ten⟩ ⟨Suit.spades, Rank.jack⟩
            ⟨Suit.diamonds, Rank.nine⟩ j) Suit.spades
          (gTrickFull.get_effective_suit ⟨Suit.hearts, Rank.nine⟩) <
        EuchreGame.get_card_value
          (nth4 ⟨Suit.hearts, Rank.nine⟩ ⟨Suit.hearts, Rank.ten⟩ ⟨Suit.spades, Rank.jack⟩
            ⟨Suit.diamonds, Rank.nine⟩ i) Suit.spades
          (gTrickFull.get_effective_suit ⟨Suit.hearts, Rank.nine⟩)) ∧
      (gTrickFull.complete_trick create_deck).completed_tricks =
        gTrickFull.completed_tricks ++
          [{ gTrickFull.current_trick with winner := nth4 "a" "b" "c" "d" i }] ∧
      (gTrickFull.complete_trick create_deck).current_player_index =
        gTrickFull.player_order.indexOf (nth4 "a" "b" "c" "d" i) :=
  C5_trick_winner gTrickFull create_deck Suit.spades "a" "b" "c" "d"
    ⟨Suit.hearts, Rank.nine⟩ ⟨Suit.hearts, Rank.ten⟩ ⟨Suit.spades, Rank.jack⟩
    ⟨Suit.diamonds, Rank.nine⟩ rfl rfl (by decide) (by decide)

/-!
## C7 — the 24-card partition invariant
-/

/-- C7, counterexample: the claimed collection (hands, tricks, trump card,
kitty remainder) is a 24-card partition right after the deal, but the
order_up operation breaks it: the picked-up trump card is then in the
dealer's hand and still recorded as `trump_card`, so the collection counts
it twice (25 cards). -/
theorem C7_counterexample :
    roundCards game4 = (create_deck : Multiset Card) ∧
    ¬ roundCards gAfterOrderUp = (create_deck : Multiset Card) := by
  decide

/-- Spreading a list into its `getD` entries. -/
theorem range_map_getD (s : List Card) :
    (List.range s.length).map (fun i => s.getD i defaultCard) = s := by
  induction s with
  | nil => rfl
  | cons a s ih =>
    rw [List.length_cons, List.range_succ_eq_map, List.map_cons, List.map_map]
    simp only [List.getD_cons_zero, Function.comp_def, List.getD_cons_succ]
    rw [ih]

/-- Computation of the deal for a seated 4-player game: seat `k` receives
the shuffled cards `k, k+4, k+8, k+12, k+16` and the card at index 20 is
turned as trump. -/
theorem deal_cards_spec (g : EuchreGame) (s : List Card) (q0 q1 q2 q3 : Player)
    (hps : g.players = [q0, q1, q2, q3])
    (hord : g.player_order = [q0.id, q1.id, q2.id, q3.id])
    (h01 : q0.id ≠ q1.id) (h02 : q0.id ≠ q2.id) (h03 : q0.id ≠ q3.id)
    (h12 : q1.id ≠ q2.id) (h13 : q1.id ≠ q3.id) (h23 : q2.id ≠ q3.id) :
    (g.deal_cards s).players =
      [{ q0 with hand := [s.getD 0 defaultCard, s.getD 4 defaultCard, s.getD 8 defaultCard,
          s.getD 12 defaultCard, s.getD 16 defaultCard] },
       { q1 with hand := [s.getD 1 defaultCard, s.getD 5 defaultCard, s.getD 9 defaultCard,
          s.getD 13 defaultCard, s.getD 17 defaultCard] },
       { q2 with hand := [s.getD 2 defaultCard, s.getD 6 defaultCard, s.getD 10 defaultCard,
          s.getD 14 defaultCard, s.getD 18 defaultCard] },
       { q3 with hand := [s.getD 3 defaultCard, s.getD 7 defaultCard, s.getD 11 defaultCard,
          s.getD 15 defaultCard, s.getD 19 defaultCard] }] ∧
    (g.deal_cards s).trump_card = some (s.getD 20 defaultCard) := by
  have hr : List.range 5 = [0, 1, 2, 3, 4] := rfl
  unfold EuchreGame.deal_cards dealPass appendToHand
  rw [hps, hord, hr]
  simp [h01, h02, h03, h12, h13, h23, Ne.symm h01, Ne.symm h02, Ne.symm h03,
    Ne.symm h12, Ne.symm h13, Ne.symm h23]

theorem deal_cards_completed (g : EuchreGame) (s : List Card) :
    (g.deal_cards s).completed_tricks = g.completed_tricks := rfl

theorem deal_cards_current (g : EuchreGame) (s : List Card) :
    (g.deal_cards s).current_trick = g.current_trick := rfl

/-- The deal of a fair shuffle partitions the 24 cards: 5 per hand, the
turned trump card, and the 3-card kitty remainder, with no duplicates, in
both the claimed and the amended accounting. -/
theorem deal_partition (g : EuchreGame) (s : List Card) (q0 q1 q2 q3 : Player)
    (hs : s.Perm create_deck)
    (hps : g.players = [q0, q1, q2, q3])
    (hord : g.player_order = [q0.id, q1.id, q2.id, q3.id])
    (h01 : q0.id ≠ q1.id) (h02 : q0.id ≠ q2.id) (h03 : q0.id ≠ q3.id)
    (h12 : q1.id ≠ q2.id) (h13 : q1.id ≠ q3.id) (h23 : q2.id ≠ q3.id)
    (hcc : g.current_trick.cards = [])
    (hco : g.completed_tricks = []) :
    (g.deal_cards s).players.map (fun p => p.hand.length) = [5, 5, 5, 5] ∧
    roundCards (g.deal_cards s) = (create_deck : Multiset Card) ∧
    roundCardsSep (g.deal_cards s) = (create_deck : Multiset Card) := by
  obtain ⟨hplayers, htc⟩ := deal_cards_spec g s q0 q1 q2 q3 hps hord h01 h02 h03 h12 h13 h23
  have hlen : s.length = 24 := by
    rw [hs.length_eq]
    rfl
  have hmap : (List.range 24).map (fun i => s.getD i defaultCard) = s := by
    have h := range_map_getD s
    rwa [hlen] at h
  have hdrop : s.drop 21 =
      [s.getD 21 defaultCard, s.getD 22 defaultCard, s.getD 23 defaultCard] := by
    conv_lhs => rw [← hmap]
    rw [← List.map_drop]
    rfl
  have hheld : heldCards (g.deal_cards s) =
      [s.getD 0 defaultCard, s.getD 4 defaultCard, s.getD 8 defaultCard,
       s.getD 12 defaultCard, s.getD 16 defaultCard,
       s.getD 1 defaultCard, s.getD 5 defaultCard, s.getD 9 defaultCard,
       s.getD 13 defaultCard, s.getD 17 defaultCard,
       s.getD 2 defaultCard, s.getD 6 defaultCard, s.getD 10 defaultCard,
       s.getD 14 defaultCard, s.getD 18 defaultCard,
       s.getD 3 defaultCard, s.getD 7 defaultCard, s.getD 11 defaultCard,
       s.getD 15 defaultCard, s.getD 19 defaultCard] := by
    simp [heldCards, hplayers, deal_cards_completed, deal_cards_current, hcc, hco, trickCards]
  have hperm : ([s.getD 0 defaultCard, s.getD 4 defaultCard, s.getD 8 defaultCard,
       s.getD 12 defaultCard, s.getD 16 defaultCard,
       s.getD 1 defaultCard, s.getD 5 defaultCard, s.getD 9 defaultCard,
       s.getD 13 defaultCard, s.getD 17 defaultCard,
       s.getD 2 defaultCard, s.getD 6 defaultCard, s.getD 10 defaultCard,
       s.getD 14 defaultCard, s.getD 18 defaultCard,
       s.getD 3 defaultCard, s.getD 7 defaultCard, s.getD 11 defaultCard,
       s.getD 15 defaultCard, s.getD 19 defaultCard] ++
      [s.getD 20 defaultCard] ++
      [s.getD 21 defaultCard, s.getD 22 defaultCard, s.getD 23 defaultCard]).Perm s := by
    have h2 := List.Perm.map (fun i => s.getD i defaultCard)
      (show ([0, 4, 8, 12, 16, 1, 5, 9, 13, 17, 2, 6, 10, 14, 18, 3, 7, 11, 15, 19,
        20, 21, 22, 23] : List Nat).Perm (List.range 24) by decide)
    rw [hmap] at h2
    exact h2
  have hnodup : ([s.getD 0 defaultCard, s.getD 4 defaultCard, s.getD 8 defaultCard,
       s.getD 12 defaultCard, s.getD 16 defaultCard,
       s.getD 1 defaultCard, s.getD 5 defaultCard, s.getD 9 defaultCard,
       s.getD 13 defaultCard, s.getD 17 defaultCard,
       s.getD 2 defaultCard, s.getD 6 defaultCard, s.getD 10 defaultCard,
       s.getD 14 defaultCard, s.getD 18 defaultCard,
       s.getD 3 defaultCard, s.getD 7 defaultCard, s.getD 11 defaultCard,
       s.getD 15 defaultCard, s.getD 19 defaultCard] ++
      [s.getD 20 defaultCard] ++
      [s.getD 21 defaultCard, s.getD 22 defaultCard, s.getD 23 defaultCard]).Nodup := by
    rw [(hperm.trans hs).nodup_iff]
    decide
  have hnotmem : s.getD 20 defaultCard ∉ heldCards (g.deal_cards s) := by
    rw [hheld]
    intro hm
    have hd := (List.nodup_append.mp (by rwa [List.append_assoc] at hnodup)).2.2
    exact hd hm (by simp)
  refine ⟨by simp [hplayers], ?_, ?_⟩
  · unfold roundCards
    rw [htc, deal_cards_deck, hheld, hdrop]
    dsimp only [Option.toList]
    rw [Multiset.coe_add, Multiset.coe_add, Multiset.coe_eq_coe]
    exact hperm.trans hs
  · unfold roundCardsSep
    rw [htc]
    dsimp only
    rw [if_neg hnotmem, deal_cards_deck, hheld, hdrop, ← Multiset.coe_singleton,
      Multiset.coe_add, Multiset.coe_add, Multiset.coe_eq_coe]
    exact hperm.trans hs

/-- A legal play implies the player exists and holds the card. -/
theorem can_play_card_mem (g : EuchreGame) (pid : String) (c : Card)
    (h : g.can_play_card pid c = true) :
    ∃ p, g.findPlayer pid = some p ∧ c ∈ p.hand := by
  unfold EuchreGame.can_play_card at h
  rcases hp : g.findPlayer pid with _ | p <;> rw [hp] at h <;> dsimp only at h
  · cases h
  · refine ⟨p, rfl, ?_⟩
    by_cases hc : c ∈ p.hand
    · exact hc
    · rw [if_neg hc] at h
      cases h

/-- A keyed update with an absent key changes nothing. -/
theorem find_none_map_update (ps : List Player) (pid : String) (f : Player → Player)
    (hnotin : pid ∉ ps.map Player.id) :
    ps.map (fun q => if q.id = pid then f q else q) = ps := by
  induction ps with
  | nil => rfl
  | cons q ps ih =>
    have h1 : ¬ (q.id = pid) := fun he => hnotin (by simp [he])
    have h2 : pid ∉ ps.map Player.id := fun hm => hnotin (by simp [hm])
    rw [List.map_cons, if_neg h1, ih h2]

/-- A keyed hand update moves exactly the updated player's hand in the
multiset of all held hand cards. -/
theorem hands_update_ms (ps : List Player) (pid : String) (p : Player) (f : Player → Player)
    (hnd : (ps.map Player.id).Nodup)
    (hp : ps.find? (fun q => q.id = pid) = some p) :
    ((ps.map (fun q => if q.id = pid then f q else q)).flatMap Player.hand : Multiset Card) +
        (p.hand : Multiset Card) =
      (ps.flatMap Player.hand : Multiset Card) + ((f p).hand : Multiset Card) := by
  induction ps with
  | nil => cases hp
  | cons q ps ih =>
    simp only [List.map_cons, List.nodup_cons] at hnd
    by_cases hq : q.id = pid
    · have hfind : List.find? (fun r => decide (r.id = pid)) (q :: ps) = some q :=
        List.find?_cons_of_pos _ (by simp [hq])
      have hpq : p = q := by
        rw [hp] at hfind
        exact Option.some_inj.mp hfind
      subst hpq
      have hnotin : pid ∉ ps.map Player.id := hq ▸ hnd.1
      rw [List.map_cons, if_pos hq, find_none_map_update ps pid f hnotin]
      simp only [List.flatMap_cons, ← Multiset.coe_add]
      abel
    · have hp2 : ps.find? (fun r => decide (r.id = pid)) = some p := by
        rwa [List.find?_cons_of_neg _ (by simp [hq])] at hp
      have ihx := ih hnd.2 hp2
      rw [List.map_cons, if_neg hq]
      simp only [List.flatMap_cons, ← Multiset.coe_add]
      rw [add_assoc, ihx, ← add_assoc]

/-- `roundCardsSep` only depends on the held multiset, the trump card and
the deck. -/
theorem roundCardsSep_congr (g g' : EuchreGame)
    (hheld : (heldCards g' : Multiset Card) = (heldCards g : Multiset Card))
    (htc : g'.trump_card = g.trump_card)
    (hdeck : g'.deck = g.deck) :
    roundCardsSep g' = roundCardsSep g := by
  have hmem : ∀ x : Card, x ∈ heldCards g' ↔ x ∈ heldCards g := by
    intro x
    rw [← Multiset.mem_coe, ← Multiset.mem_coe, hheld]
  unfold roundCardsSep
  rcases hgt : g'.trump_card with _ | tc
  · have hgt2 : g.trump_card = none := htc.symm.trans hgt
    rw [hheld, hdeck, hgt2]
  · have hgt2 : g.trump_card = some tc := htc.symm.trans hgt
    rw [hheld, hdeck, hgt2]
    simp [hmem tc]

/-- Completing a trick that is not the round's fifth moves the current trick
into the archive and touches neither the held multiset, the trump card, nor
the deck. -/
theorem complete_trick_frame (g : EuchreGame) (s : List Card)
    (h4 : g.completed_tricks.length ≠ 4) :
    (heldCards (g.complete_trick s) : Multiset Card) = (heldCards g : Multiset Card) ∧
    (g.complete_trick s).trump_card = g.trump_card ∧
    (g.complete_trick s).deck = g.deck := by
  unfold EuchreGame.complete_trick
  rcases htr : g.trump_suit with _ | t <;>
    rcases hcc : g.current_trick.cards with _ | ⟨⟨p0, c0⟩, rest⟩
  · exact ⟨rfl, rfl, rfl⟩
  · exact ⟨rfl, rfl, rfl⟩
  · exact ⟨rfl, rfl, rfl⟩
  · dsimp only
    by_cases hlen : ((p0, c0) :: rest : List (String × Card)).length = 4
    · rw [if_pos hlen]
      rw [if_neg (by simp only [List.length_append, List.length_singleton]; omega)]
      refine ⟨?_, rfl, rfl⟩
      simp only [heldCards, trickCards, Trick.empty, List.flatMap_append,
        List.flatMap_cons, List.flatMap_nil, List.map_nil, List.append_nil, hcc,
        ← Multiset.coe_add]
      abel
    · rw [if_neg hlen]
      exact ⟨rfl, rfl, rfl⟩

/-- Cancellation shape used for the erase accounting. -/
theorem ms_cancel (A B E C1 : Multiset Card) (hx : A + (E + C1) = B + E) :
    A + C1 = B := by
  have h2 : (A + C1) + E = B + E := by
    calc (A + C1) + E = A + (E + C1) := by abel
    _ = B + E := hx
  exact add_right_cancel h2

/-- A play that does not end the round preserves the amended 24-card
collection. -/
theorem play_card_roundCardsSep (g : EuchreGame) (pid : String) (c : Card)
    (s : List Card) (g' : EuchreGame)
    (hnd : (g.players.map Player.id).Nodup)
    (hnr : ¬ (g.current_trick.cards.length = 3 ∧ g.completed_tricks.length = 4))
    (h : g.play_card pid c s = some g') :
    roundCardsSep g' = roundCardsSep g := by
  have hcp : g.can_play_card pid c = true := by
    by_contra hcpf
    unfold EuchreGame.play_card at h
    rw [if_neg (by simpa using hcpf)] at h
    cases h
  obtain ⟨p, hp, hc⟩ := can_play_card_mem g pid c hcp
  have hph : (p.hand : Multiset Card) = ↑(p.hand.erase c) + {c} := by
    rw [← Multiset.coe_singleton, Multiset.coe_add, Multiset.coe_eq_coe]
    exact (List.perm_cons_erase hc).trans (List.perm_append_singleton _ _).symm
  have hhand : ((g.players.map
      (fun q => if q.id = pid then { q with hand := q.hand.erase c } else q)).flatMap
        Player.hand : Multiset Card) + {c} =
      (g.players.flatMap Player.hand : Multiset Card) := by
    have h2 := hands_update_ms g.players pid p
      (fun q => { q with hand := q.hand.erase c }) hnd hp
    dsimp only at h2
    rw [hph] at h2
    exact ms_cancel _ _ _ _ h2
  unfold EuchreGame.play_card at h
  rw [if_pos hcp] at h
  simp only [] at h
  by_cases hE : g.current_trick.cards.isEmpty = true
  · rw [if_pos hE] at h
    split at h
    · next hlen =>
        cases h
        simp only [List.length_append, List.length_singleton] at hlen
        refine Eq.trans (roundCardsSep_congr _ _
          (complete_trick_frame _ s ?_).1 (complete_trick_frame _ s ?_).2.1
          (complete_trick_frame _ s ?_).2.2) ?_
        any_goals
          intro h4
          exact hnr ⟨by omega, h4⟩
        refine roundCardsSep_congr _ _ ?_ rfl rfl
        simp only [heldCards, trickCards, List.map_append, List.map_cons, List.map_nil,
          ← Multiset.coe_add]
        rw [← hhand]
        abel
    · next hlen =>
        cases h
        refine roundCardsSep_congr _ _ ?_ rfl rfl
        simp only [heldCards, trickCards, List.map_append, List.map_cons, List.map_nil,
          ← Multiset.coe_add]
        rw [← hhand]
        abel
  · rw [if_neg hE] at h
    split at h
    · next hlen =>
        cases h
        simp only [List.length_append, List.length_singleton] at hlen
        refine Eq.trans (roundCardsSep_congr _ _
          (complete_trick_frame _ s ?_).1 (complete_trick_frame _ s ?_).2.1
          (complete_trick_frame _ s ?_).2.2) ?_
        any_goals
          intro h4
          exact hnr ⟨by omega, h4⟩
        refine roundCardsSep_congr _ _ ?_ rfl rfl
        simp only [heldCards, trickCards, List.map_append, List.map_cons, List.map_nil,
          ← Multiset.coe_add]
        rw [← hhand]
        abel
    · next hlen =>
        cases h
        refine roundCardsSep_congr _ _ ?_ rfl rfl
        simp only [heldCards, trickCards, List.map_append, List.map_cons, List.map_nil,
          ← Multiset.coe_add]
        rw [← hhand]
        abel

/-- Cancellation shape used for the pickup accounting. -/
theorem ms_cancel2 (A B E C1 : Multiset Card) (hx : A + E = B + (E + C1)) :
    A = B + C1 := by
  have h2 : A + E = (B + C1) + E := by
    calc A + E = B + (E + C1) := hx
    _ = (B + C1) + E := by abel
  exact add_right_cancel h2

/-- `roundCardsSep` through the five fields it reads. -/
theorem roundCardsSep_fields (g g' : EuchreGame)
    (hpl : g'.players = g.players)
    (hct : g'.current_trick = g.current_trick)
    (hcm : g'.completed_tricks = g.completed_tricks)
    (htc : g'.trump_card = g.trump_card)
    (hdeck : g'.deck = g.deck) :
    roundCardsSep g' = roundCardsSep g := by
  refine roundCardsSep_congr g g' ?_ htc hdeck
  unfold heldCards
  rw [hpl, hct, hcm]

/-- The dealer pickup of the turned trump card: appending it to a seated
player's hand moves it into the held multiset, so the amended collection is
unchanged; appending to an absent id changes nothing at all. -/
theorem pickup_roundCardsSep (g g2 : EuchreGame) (tc : Card) (did : String)
    (hnd : (g.players.map Player.id).Nodup)
    (hgtc : g.trump_card = some tc)
    (hnot : tc ∉ heldCards g)
    (hpl : g2.players = appendToHand g.players did tc)
    (htc2 : g2.trump_card = g.trump_card)
    (hdk : g2.deck = g.deck)
    (hct : g2.current_trick = g.current_trick)
    (hcm : g2.completed_tricks = g.completed_tricks) :
    roundCardsSep g2 = roundCardsSep g := by
  by_cases hmem : did ∈ g.players.map Player.id
  · obtain ⟨p, hpfind⟩ : ∃ p, g.players.find? (fun q => q.id = did) = some p := by
      refine Option.isSome_iff_exists.mp ?_
      rw [List.find?_isSome]
      obtain ⟨q, hq, hqe⟩ := List.mem_map.mp hmem
      exact ⟨q, hq, by simp [hqe]⟩
    have h2 := hands_update_ms g.players did p
      (fun q => { q with hand := q.hand ++ [tc] }) hnd hpfind
    dsimp only at h2
    rw [show ((p.hand ++ [tc] : List Card) : Multiset Card) =
        (p.hand : Multiset Card) + {tc} by
      rw [← Multiset.coe_add, Multiset.coe_singleton]] at h2
    have hflat := ms_cancel2 _ _ _ _ h2
    have hheldX : (heldCards g2 : Multiset Card) = (heldCards g : Multiset Card) + {tc} := by
      simp only [heldCards, hpl, hct, hcm, appendToHand, ← Multiset.coe_add]
      rw [hflat]
      abel
    have hmemX : tc ∈ heldCards g2 := by
      rw [← Multiset.mem_coe, hheldX]
      simp
    unfold roundCardsSep
    rw [htc2, hgtc]
    dsimp only
    rw [if_pos hmemX, if_neg hnot, hheldX, hdk]
    abel
  · have hupd : appendToHand g.players did tc = g.players :=
      find_none_map_update g.players did (fun p => { p with hand := p.hand ++ [tc] }) hmem
    refine roundCardsSep_congr g g2 ?_ htc2 hdk
    have hl : heldCards g2 = heldCards g := by
      unfold heldCards
      rw [hpl, hct, hcm, hupd]
    rw [hl]

/-- Accepting or declining to go alone never touches the cards. -/
theorem handle_going_alone_roundCardsSep (g : EuchreGame) (pid : String) (b : Bool)
    (g' : EuchreGame) (h : g.handle_going_alone pid b = some g') :
    roundCardsSep g' = roundCardsSep g := by
  unfold EuchreGame.handle_going_alone at h
  by_cases hm : g.trump_maker = some pid
  · rw [if_pos hm] at h
    cases h
    rfl
  · rw [if_neg hm] at h
    cases h

/-- Every accepted trump-selection action keeps the amended collection equal
to the full deck: order-up moves the turned card into the dealer hand,
name-trump and a non-wrapping pass move no cards, and the round-2 wrap
redeals a fresh fair shuffle. -/
theorem handle_trump_selection_conserve (g : EuchreGame) (pid act : String)
    (suit : Option Suit) (s : List Card) (g' : EuchreGame) (q0 q1 q2 q3 : Player)
    (hs : s.Perm create_deck)
    (hps : g.players = [q0, q1, q2, q3])
    (hord : g.player_order = [q0.id, q1.id, q2.id, q3.id])
    (h01 : q0.id ≠ q1.id) (h02 : q0.id ≠ q2.id) (h03 : q0.id ≠ q3.id)
    (h12 : q1.id ≠ q2.id) (h13 : q1.id ≠ q3.id) (h23 : q2.id ≠ q3.id)
    (hcc : g.current_trick.cards = [])
    (hco : g.completed_tricks = [])
    (htc : ∀ tc, g.trump_card = some tc → tc ∉ heldCards g)
    (h : g.handle_trump_selection pid act suit s = some g')
    (hinv : roundCardsSep g = (create_deck : Multiset Card)) :
    roundCardsSep g' = (create_deck : Multiset Card) := by
  have hnd : (g.players.map Player.id).Nodup := by
    rw [hps]
    simp [h01, h02, h03, h12, h13, h23]
  unfold EuchreGame.handle_trump_selection at h
  by_cases h1 : g.phase ≠ GamePhase.trump_selection
  · rw [if_pos h1] at h
    cases h
  rw [if_neg h1] at h
  by_cases h2 : pid ≠ g.player_order.getD g.trump_selection_player_index ""
  · rw [if_pos h2] at h
    cases h
  rw [if_neg h2] at h
  by_cases h3 : act = "order_up" ∧ g.trump_selection_round = 1
  · rw [if_pos h3] at h
    rcases hgtc : g.trump_card with _ | tc <;> rw [hgtc] at h <;> dsimp only at h
    · cases h
    · cases h
      refine Eq.trans ?_ hinv
      exact pickup_roundCardsSep g _ tc (g.player_order.getD g.dealer_index "")
        hnd hgtc (htc tc hgtc) rfl hgtc.symm rfl rfl rfl
  rw [if_neg h3] at h
  by_cases h4 : act = "name_trump" ∧ g.trump_selection_round = 2 ∧ suit.isSome
  · rw [if_pos h4] at h
    rcases hsu : suit with _ | su <;> rcases hgtc : g.trump_card with _ | tc <;>
        rw [hsu, hgtc] at h <;> dsimp only at h
    · cases h
    · cases h
    · cases h
    · by_cases h5 : su ≠ tc.suit
      · rw [if_pos h5] at h
        cases h
        refine Eq.trans ?_ hinv
        exact roundCardsSep_fields g _ rfl rfl rfl hgtc.symm rfl
      · rw [if_neg h5] at h
        cases h
  rw [if_neg h4] at h
  by_cases h6 : act = "pass"
  · rw [if_pos h6] at h
    simp only [] at h
    by_cases h7 : g.trump_selection_round = 1 ∧
        (g.trump_selection_player_index + 1) % 4 = (g.dealer_index + 1) % 4
    · rw [if_pos h7] at h
      cases h
      refine Eq.trans ?_ hinv
      exact roundCardsSep_fields g _ rfl rfl rfl rfl rfl
    · rw [if_neg h7] at h
      by_cases h8 : g.trump_selection_round = 2 ∧
          (g.trump_selection_player_index + 1) % 4 = (g.dealer_index + 1) % 4
      · rw [if_pos h8] at h
        cases h
        exact (deal_partition
          { g with trump_selection_player_index := (g.trump_selection_player_index + 1) % 4 }
          s q0 q1 q2 q3 hs hps hord h01 h02 h03 h12 h13 h23 hcc hco).2.2
      · rw [if_neg h8] at h
        cases h
        refine Eq.trans ?_ hinv
        exact roundCardsSep_fields g _ rfl rfl rfl rfl rfl
  · rw [if_neg h6] at h
    cases h

/-- **C7** (amended): throughout a round the engine conserves exactly the 24
cards of the Euchre deck, counted as `roundCardsSep`: the hands, the archived
tricks, the trick in play, the kitty below the 21 dealt cards, and the turned
trump card counted separately only while no hand holds it.  (1) A deal of a
fair shuffle to four distinctly named seated players gives 5 cards per hand
and establishes the invariant; (2) every accepted trump-selection action
preserves it (the dealer pickup moves the turned card into a hand, a
round-2 wrap redeals a fresh fair shuffle); (3) going-alone calls move no
cards; (4) every accepted card play that does not finish the fifth trick
keeps the collection unchanged. -/
theorem C7_round_card_conservation :
    (∀ (g : EuchreGame) (s : List Card) (q0 q1 q2 q3 : Player),
        s.Perm create_deck → g.players = [q0, q1, q2, q3] →
        g.player_order = [q0.id, q1.id, q2.id, q3.id] →
        q0.id ≠ q1.id → q0.id ≠ q2.id → q0.id ≠ q3.id →
        q1.id ≠ q2.id → q1.id ≠ q3.id → q2.id ≠ q3.id →
        g.current_trick.cards = [] → g.completed_tricks = [] →
        (g.deal_cards s).players.map (fun p => p.hand.length) = [5, 5, 5, 5] ∧
          roundCardsSep (g.deal_cards s) = (create_deck : Multiset Card)) ∧
    (∀ (g : EuchreGame) (pid act : String) (suit : Option Suit) (s : List Card)
        (g' : EuchreGame) (q0 q1 q2 q3 : Player),
        s.Perm create_deck → g.players = [q0, q1, q2, q3] →
        g.player_order = [q0.id, q1.id, q2.id, q3.id] →
        q0.id ≠ q1.id → q0.id ≠ q2.id → q0.id ≠ q3.id →
        q1.id ≠ q2.id → q1.id ≠ q3.id → q2.id ≠ q3.id →
        g.current_trick.cards = [] → g.completed_tricks = [] →
        (∀ tc, g.trump_card = some tc → tc ∉ heldCards g) →
        g.handle_trump_selection pid act suit s = some g' →
        roundCardsSep g = (create_deck : Multiset Card) →
        roundCardsSep g' = (create_deck : Multiset Card)) ∧
    (∀ (g : EuchreGame) (pid : String) (b : Bool) (g' : EuchreGame),
        g.handle_going_alone pid b = some g' →
        roundCardsSep g' = roundCardsSep g) ∧
    (∀ (g : EuchreGame) (pid : String) (c : Card) (s : List Card) (g' : EuchreGame),
        (g.players.map Player.id).Nodup →
        ¬ (g.current_trick.cards.length = 3 ∧ g.completed_tricks.length = 4) →
        g.play_card pid c s = some g' →
        roundCardsSep g' = roundCardsSep g) := by
  refine ⟨?_, ?_, ?_, ?_⟩
  · intro g s q0 q1 q2 q3 hs hps hord h01 h02 h03 h12 h13 h23 hcc hco
    have hd := deal_partition g s q0 q1 q2 q3 hs hps hord h01 h02 h03 h12 h13 h23 hcc hco
    exact ⟨hd.1, hd.2.2⟩
  · intro g pid act suit s g' q0 q1 q2 q3 hs hps hord h01 h02 h03 h12 h13 h23 hcc hco htc h hinv
    exact handle_trump_selection_conserve g pid act suit s g' q0 q1 q2 q3 hs hps hord
      h01 h02 h03 h12 h13 h23 hcc hco htc h hinv
  · intro g pid b g' h
    exact handle_going_alone_roundCardsSep g pid b g' h
  · intro g pid c s g' hnd hnr h
    exact play_card_roundCardsSep g pid c s g' hnd hnr h

/-- The conservation theorem exercised on the identity-shuffle fixture: the
redeal, the order-up pickup, a going-alone call and the first card play all
keep the amended collection equal to the 24-card deck. -/
theorem C7_witness :
    ((game4.deal_cards create_deck).players.map (fun p => p.hand.length) = [5, 5, 5, 5] ∧
      roundCardsSep (game4.deal_cards create_deck) = (create_deck : Multiset Card)) ∧
    roundCardsSep gAfterOrderUp = (create_deck : Multiset Card) ∧
    roundCardsSep ((gAfterOrderUp.handle_going_alone "b" true).getD gAfterOrderUp) =
      roundCardsSep gAfterOrderUp ∧
    roundCardsSep ((gAfterOrderUp.play_card "b" ⟨Suit.hearts, Rank.ten⟩ create_deck).getD
        gAfterOrderUp) = roundCardsSep gAfterOrderUp := by
  refine ⟨C7_round_card_conservation.1 game4 create_deck
      (game4.players.getD 0 ⟨"", "", [], 0, true, false⟩)
      (game4.players.getD 1 ⟨"", "", [], 0, true, false⟩)
      (game4.players.getD 2 ⟨"", "", [], 0, true, false⟩)
      (game4.players.getD 3 ⟨"", "", [], 0, true, false⟩)
      (List.Perm.refl _) rfl rfl (by decide) (by decide) (by decide) (by decide) (by decide)
      (by decide) rfl rfl,
    C7_round_card_conservation.2.1 game4 "b" "order_up" none create_deck gAfterOrderUp
      (game4.players.getD 0 ⟨"", "", [], 0, true, false⟩)
      (game4.players.getD 1 ⟨"", "", [], 0, true, false⟩)
      (game4.players.getD 2 ⟨"", "", [], 0, true, false⟩)
      (game4.players.getD 3 ⟨"", "", [], 0, true, false⟩)
      (List.Perm.refl _) rfl rfl (by decide) (by decide) (by decide) (by decide) (by decide)
      (by decide) rfl rfl (by decide) rfl (by decide),
    C7_round_card_conservation.2.2.1 gAfterOrderUp "b" true _ rfl,
    C7_round_card_conservation.2.2.2 gAfterOrderUp "b" ⟨Suit.hearts, Rank.ten⟩ create_deck _
      (by decide) (by decide) rfl⟩

end Euchre
